import Mathlib

/-
Verification development for the multi-agent social-law planning toolkit
(unified-planning fork): a shallow embedding of the expression/problem model
and of the transformers `SingleAgentProjection`, `RobustnessVerifier` /
`InstantaneousActionRobustnessVerifier` and the orchestrator `SocialLaw`,
together with theorems settling the specification's claims about them.

Python exceptions are modelled with `Except PyError`; the mutable
`self._new_problem` caches of the transformer objects are modelled by
explicit state records threaded through the calls.
-/

/-- A term appearing as an argument of a fluent application: either an action
parameter (substituted when the action is grounded) or a concrete object. -/
inductive UPTerm where
  | param (name : String)
  | obj (name : String)
deriving DecidableEq

/-- Boolean expression nodes (`FNode` in the source), restricted to the
fragment the transformers traverse: fluent applications, negation,
conjunction and Boolean constants. -/
inductive FNode where
  | fluentApp (name : String) (args : List UPTerm)
  | notE (arg : FNode)
  | andE (args : List FNode)
  | boolConst (b : Bool)

mutual

/-- Structural equality on expressions (interned expressions compare
structurally in the source). -/
def FNode.beq : FNode → FNode → Bool
  | .fluentApp n a, .fluentApp m b => n == m && a == b
  | .notE f, .notE g => FNode.beq f g
  | .andE fs, .andE gs => FNode.beqList fs gs
  | .boolConst a, .boolConst b => a == b
  | _, _ => false

/-- Elementwise `FNode.beq` on lists. -/
def FNode.beqList : List FNode → List FNode → Bool
  | [], [] => true
  | f :: fs, g :: gs => FNode.beq f g && FNode.beqList fs gs
  | _, _ => false

end

mutual

theorem FNode.eq_of_beq : ∀ {a b : FNode}, FNode.beq a b = true → a = b
  | .fluentApp n a, .fluentApp m b, h => by
    simp only [FNode.beq, Bool.and_eq_true, beq_iff_eq] at h
    simp [h.1, h.2]
  | .notE f, .notE g, h => by
    simp only [FNode.beq] at h
    simp [FNode.eq_of_beq h]
  | .andE fs, .andE gs, h => by
    simp only [FNode.beq] at h
    simp [FNode.eqList_of_beqList h]
  | .boolConst a, .boolConst b, h => by
    simp only [FNode.beq, beq_iff_eq] at h
    simp [h]

theorem FNode.eqList_of_beqList : ∀ {a b : List FNode}, FNode.beqList a b = true → a = b
  | [], [], _ => rfl
  | f :: fs, g :: gs, h => by
    simp only [FNode.beqList, Bool.and_eq_true] at h
    simp [FNode.eq_of_beq h.1, FNode.eqList_of_beqList h.2]

end

mutual

theorem FNode.beq_refl : ∀ (a : FNode), FNode.beq a a = true
  | .fluentApp _ _ => by simp [FNode.beq]
  | .notE f => by simp [FNode.beq, FNode.beq_refl f]
  | .andE fs => by simp [FNode.beq, FNode.beqList_refl fs]
  | .boolConst _ => by simp [FNode.beq]

theorem FNode.beqList_refl : ∀ (a : List FNode), FNode.beqList a a = true
  | [] => rfl
  | f :: fs => by simp [FNode.beqList, FNode.beq_refl f, FNode.beqList_refl fs]

end

instance : DecidableEq FNode := fun a b =>
  decidable_of_iff (FNode.beq a b = true) ⟨FNode.eq_of_beq, fun h => h ▸ FNode.beq_refl a⟩

/-- `FNode.is_and` of the source. -/
def FNode.is_and : FNode → Bool
  | .andE _ => true
  | _ => false

/-- `FNode.is_not` of the source. -/
def FNode.is_not : FNode → Bool
  | .notE _ => true
  | _ => false

/-- `FNode.is_true` of the source: the expression is the constant `True`. -/
def FNode.is_true : FNode → Bool
  | .boolConst true => true
  | _ => false

/-- An effect (`Effect` in the source): a fluent-application target, a value
expression, and a condition (`True` when the effect is unconditional). -/
structure UPEffect where
  fluent : FNode
  value : FNode
  condition : FNode
deriving DecidableEq

/-- An agent of the multi-agent problem.  A plain `Agent` is identified by a
name and an agent-type name and carries a goal list; an
`ExistingObjectAgent` (flag `isExistingObject`) wraps an already existing
object, whose name and type the `name`/`typeName` fields hold (`Agent.obj`
returns an object with exactly that name and type in both cases). -/
structure UPAgent where
  name : String
  typeName : String
  goals : List FNode
  isExistingObject : Bool
deriving DecidableEq

/-- Python `==` on agents, dispatching on the left operand's class:
`Agent.__eq__` compares name, goals and agent-type name (any agent is an
instance of `Agent`); `ExistingObjectAgent.__eq__` requires the other to be
an `ExistingObjectAgent` too and compares the underlying objects, i.e. their
names and types. -/
def UPAgent.py_eq (a b : UPAgent) : Bool :=
  if a.isExistingObject then
    b.isExistingObject && a.name == b.name && a.typeName == b.typeName
  else
    a.name == b.name && a.goals == b.goals && a.typeName == b.typeName

/-- An instantaneous action: name, typed parameters, preconditions, waitfor
preconditions (`preconditions_wait`), effects, and an optional agent binding
(`None` on freshly constructed copies). -/
structure UPInstAction where
  name : String
  params : List (String × String)
  preconditions : List FNode
  preconditions_wait : List FNode
  effects : List UPEffect
  agent : Option UPAgent
deriving DecidableEq

/-- A fluent declaration: name, value-type name and the type names of its
signature parameters. -/
structure UPFluent where
  name : String
  typeName : String
  signature : List String
deriving DecidableEq

/-- A problem: user types, fluent declarations, objects (name, type),
agents, actions, explicitly set initial values and goals. -/
structure UPProblem where
  name : String
  types : List String
  fluents : List UPFluent
  objects : List (String × String)
  agents : List UPAgent
  actions : List UPInstAction
  initial_values : List (FNode × FNode)
  goals : List FNode
deriving DecidableEq

/-- The Python exceptions the embedded code can raise: a bare `assert`
failure, the library's `UPProblemDefinitionError`, and a dictionary
`KeyError`. -/
inductive PyError where
  | assertionError
  | problemDefinitionError
  | keyError
deriving DecidableEq

deriving instance DecidableEq for Except

/-- Modelled from the spec: `Problem.add_fluent` is not under `src/`; the
spec's error design names "duplicate fluent/object/action names" as
`ProblemDefinitionError`, and its ordering rules require order-preserving
containers, so the fluent is appended after a duplicate-name check. -/
def UPProblem.add_fluent (p : UPProblem) (f : UPFluent) : Except PyError UPProblem :=
  if p.fluents.any (fun g => g.name == f.name) then .error .problemDefinitionError
  else .ok { p with fluents := p.fluents ++ [f] }

/-- Modelled from the spec: `Problem.add_action` is not under `src/`;
duplicate action names are a `ProblemDefinitionError` and actions live in an
order-preserving list. -/
def UPProblem.add_action (p : UPProblem) (a : UPInstAction) : Except PyError UPProblem :=
  if p.actions.any (fun b => b.name == a.name) then .error .problemDefinitionError
  else .ok { p with actions := p.actions ++ [a] }

/-- Modelled from the spec: `Problem.add_object` is not under `src/`;
duplicate object names are a `ProblemDefinitionError` and objects live in an
order-preserving list. -/
def UPProblem.add_object (p : UPProblem) (o : String × String) : Except PyError UPProblem :=
  if p.objects.any (fun q => q.1 == o.1) then .error .problemDefinitionError
  else .ok { p with objects := p.objects ++ [o] }

/-- `Problem.add_objects`: add each object in order. -/
def UPProblem.add_objects (p : UPProblem) : List (String × String) → Except PyError UPProblem
  | [] => .ok p
  | o :: os =>
    match p.add_object o with
    | .error e => .error e
    | .ok p' => p'.add_objects os

/-- Modelled from the spec: `Problem.set_initial_value` is not under `src/`;
the assignment is recorded in the (order-preserving) initial-value map. -/
def UPProblem.set_initial_value (p : UPProblem) (var val : FNode) : UPProblem :=
  { p with initial_values := p.initial_values ++ [(var, val)] }

/-- Modelled from the spec: `Problem.add_goal` is not under `src/`; the goal
is appended to the ordered goal list. -/
def UPProblem.add_goal (p : UPProblem) (g : FNode) : UPProblem :=
  { p with goals := p.goals ++ [g] }

/-- First-error-wins traversal: the embedding of a Python `for` loop whose
body may raise, collecting one result per element. -/
def mapE {α β : Type} (f : α → Except PyError β) : List α → Except PyError (List β)
  | [] => .ok []
  | x :: xs =>
    match f x with
    | .error e => .error e
    | .ok y =>
      match mapE f xs with
      | .error e => .error e
      | .ok ys => .ok (y :: ys)

/-- `enumerate` loop: like `mapE` with the running index. -/
def mapIdxE {α β : Type} (f : Nat → α → Except PyError β) : Nat → List α → Except PyError (List β)
  | _, [] => .ok []
  | i, x :: xs =>
    match f i x with
    | .error e => .error e
    | .ok y =>
      match mapIdxE f (i + 1) xs with
      | .error e => .error e
      | .ok ys => .ok (y :: ys)

/-- Add a list of already built actions to a problem, in order. -/
def addActionsE (p : UPProblem) : List UPInstAction → Except PyError UPProblem
  | [] => .ok p
  | a :: rest =>
    match p.add_action a with
    | .error e => .error e
    | .ok p' => addActionsE p' rest

/-- Whether a fluent of the given name is declared (the transformer's
`_g_fluent_map`/`_l_fluent_map`/`_w_fluent_map` dictionaries are keyed by
exactly the input problem's fluent names). -/
def fluent_declared (fluents : List UPFluent) (n : String) : Bool :=
  fluents.any (fun f => f.name == n)

/-- `RobustnessVerifier.get_global_version`: strip one negation, look the
fluent up in the `g-` map and reapply the negation.  A fact that is neither
a fluent application nor a negated one makes `fact.fluent()` raise; an
undeclared fluent name raises `KeyError` on the map. -/
def RobustnessVerifier.get_global_version (fluents : List UPFluent) :
    FNode → Except PyError FNode
  | .fluentApp n args =>
    if fluent_declared fluents n then .ok (.fluentApp ("g-" ++ n) args)
    else .error .keyError
  | .notE (.fluentApp n args) =>
    if fluent_declared fluents n then .ok (.notE (.fluentApp ("g-" ++ n) args))
    else .error .keyError
  | _ => .error .assertionError

/-- `RobustnessVerifier.get_local_version`: like the global version but the
`l-` fluent takes the agent's object as an extra first argument. -/
def RobustnessVerifier.get_local_version (fluents : List UPFluent) (agentName : String) :
    FNode → Except PyError FNode
  | .fluentApp n args =>
    if fluent_declared fluents n then .ok (.fluentApp ("l-" ++ n) (.obj agentName :: args))
    else .error .keyError
  | .notE (.fluentApp n args) =>
    if fluent_declared fluents n then
      .ok (.notE (.fluentApp ("l-" ++ n) (.obj agentName :: args)))
    else .error .keyError
  | _ => .error .assertionError

/-- `InstantaneousActionRobustnessVerifier.get_waiting_version`: the `w-`
fluent keeps the fact's own arguments (no agent argument in the
instantaneous variant). -/
def InstantaneousActionRobustnessVerifier.get_waiting_version (fluents : List UPFluent) :
    FNode → Except PyError FNode
  | .fluentApp n args =>
    if fluent_declared fluents n then .ok (.fluentApp ("w-" ++ n) args)
    else .error .keyError
  | .notE (.fluentApp n args) =>
    if fluent_declared fluents n then .ok (.notE (.fluentApp ("w-" ++ n) args))
    else .error .keyError
  | _ => .error .assertionError

/-- The `if fact.is_and(): for f in fact.args ... else ...` pattern used on
every precondition list: a top-level conjunction is split into its
conjuncts, any other fact is kept whole. -/
def flatten_fact : FNode → List FNode
  | .andE args => args
  | f => [f]

/-- Modelled from the spec: `InstantaneousAction.add_effect` is not under
`src/`; the effect target must be a fluent application and the condition
defaults to `True`. -/
def mk_effect (f v : FNode) : Except PyError UPEffect :=
  match f with
  | .fluentApp _ _ => .ok ⟨f, v, .boolConst true⟩
  | _ => .error .assertionError

/-- The expression for the nullary `act` fluent (`self.act_pred`). -/
def act_expr : FNode := .fluentApp "act" []

/-- The expression for the nullary `crash` fluent. -/
def crash_expr : FNode := .fluentApp "crash" []

/-- The expression for the nullary `failure` fluent. -/
def failure_expr : FNode := .fluentApp "failure" []

/-- `waiting(agent)` for the given agent object name. -/
def waiting_app (agentName : String) : FNode := .fluentApp "waiting" [.obj agentName]

/-- `fin(agent)` for the given agent object name. -/
def fin_app (agentName : String) : FNode := .fluentApp "fin" [.obj agentName]

/-- `UPInstAction.agent` dereference (`action.agent.obj` raises on a missing
binding). -/
def UPInstAction.agentE (a : UPInstAction) : Except PyError UPAgent :=
  match a.agent with
  | some ag => .ok ag
  | none => .error .assertionError

/-- The local copy of one effect
(`new_action.add_effect(self.get_local_version(effect.fluent, …), effect.value)`). -/
def local_effect (fluents : List UPFluent) (agentName : String) (e : UPEffect) :
    Except PyError UPEffect :=
  match RobustnessVerifier.get_local_version fluents agentName e.fluent with
  | .error err => .error err
  | .ok lf => mk_effect lf e.value

/-- The global copy of one effect
(`a_s.add_effect(self.get_global_version(effect.fluent), effect.value)`). -/
def global_effect (fluents : List UPFluent) (e : UPEffect) : Except PyError UPEffect :=
  match RobustnessVerifier.get_global_version fluents e.fluent with
  | .error err => .error err
  | .ok gf => mk_effect gf e.value

/-- The negated waiting marker the success copy requires for one true-valued
effect (`a_s.add_precondition(Not(self.get_waiting_version(effect.fluent)))`). -/
def waiting_pre (fluents : List UPFluent) (e : UPEffect) : Except PyError FNode :=
  match InstantaneousActionRobustnessVerifier.get_waiting_version fluents e.fluent with
  | .error err => .error err
  | .ok w => .ok (FNode.notE w)

/-- `InstantaneousActionRobustnessVerifier.create_action_copy`: a copy named
`name ++ suffix` with the same parameters, precondition `act`, the local
versions of all (flattened) preconditions and waitfor preconditions, and the
local versions of all effects.  The copy carries no agent binding. -/
def InstantaneousActionRobustnessVerifier.create_action_copy
    (fluents : List UPFluent) (action : UPInstAction) (suffix : String) :
    Except PyError UPInstAction :=
  match action.agentE with
  | .error e => .error e
  | .ok ag =>
    match mapE (RobustnessVerifier.get_local_version fluents ag.name)
        ((action.preconditions ++ action.preconditions_wait).flatMap flatten_fact) with
    | .error e => .error e
    | .ok pres =>
      match mapE (local_effect fluents ag.name) action.effects with
      | .error e => .error e
      | .ok effs =>
        .ok { name := action.name ++ suffix,
              params := action.params,
              preconditions := act_expr :: pres,
              preconditions_wait := [],
              effects := effs,
              agent := none }

/-- The success copy `α_s` (`get_rewritten_problem`, "Success version"):
on top of the local copy it requires `!waiting(A)`, `!crash`, for each
effect whose value is `True` that the waiting marker of the target fluent is
false, and the global versions of all (flattened) preconditions and waitfor
preconditions; it additionally applies the effects to the global copies. -/
def build_a_s (fluents : List UPFluent) (action : UPInstAction) :
    Except PyError UPInstAction :=
  match action.agentE with
  | .error e => .error e
  | .ok ag =>
    match InstantaneousActionRobustnessVerifier.create_action_copy fluents action "_s" with
    | .error e => .error e
    | .ok base =>
      match mapE (waiting_pre fluents) (action.effects.filter (fun e => e.value.is_true)) with
      | .error e => .error e
      | .ok wpres =>
        match mapE (RobustnessVerifier.get_global_version fluents)
            ((action.preconditions ++ action.preconditions_wait).flatMap flatten_fact) with
        | .error e => .error e
        | .ok gpres =>
          match mapE (global_effect fluents) action.effects with
          | .error e => .error e
          | .ok geffs =>
            .ok { base with
                  preconditions := base.preconditions ++
                    [.notE (waiting_app ag.name), .notE crash_expr] ++ wpres ++ gpres,
                  effects := base.effects ++ geffs }

/-- The flattened regular preconditions (`real_preconds` in the source). -/
def real_preconds (action : UPInstAction) : List FNode :=
  action.preconditions.flatMap flatten_fact

/-- The fail copy `α_f_i` for the `i`-th flattened precondition: requires
`!waiting(A)`, `!crash`, the global versions of the (unflattened) waitfor
preconditions and the negation of the global version of the violated
precondition; sets `failure` and `crash`. -/
def build_a_f (fluents : List UPFluent) (action : UPInstAction) (i : Nat) (fact : FNode) :
    Except PyError UPInstAction :=
  match action.agentE with
  | .error e => .error e
  | .ok ag =>
    match InstantaneousActionRobustnessVerifier.create_action_copy fluents action
        ("_f_" ++ toString i) with
    | .error e => .error e
    | .ok base =>
      match mapE (RobustnessVerifier.get_global_version fluents) action.preconditions_wait with
      | .error e => .error e
      | .ok wg =>
        match RobustnessVerifier.get_global_version fluents fact with
        | .error e => .error e
        | .ok gfact =>
          .ok { base with
                preconditions := base.preconditions ++
                  [.notE (waiting_app ag.name), .notE crash_expr] ++ wg ++ [.notE gfact],
                effects := base.effects ++
                  [⟨failure_expr, .boolConst true, .boolConst true⟩,
                   ⟨crash_expr, .boolConst true, .boolConst true⟩] }

/-- The wait copy `α_w_i` for the `i`-th waitfor precondition: requires
`!crash`, `!waiting(A)` and the negation of the global version of the fact;
sets the fact's waiting marker, `waiting(A)` and `failure`.  The source
asserts the fact is not negated. -/
def build_a_w (fluents : List UPFluent) (action : UPInstAction) (i : Nat) (fact : FNode) :
    Except PyError UPInstAction :=
  match action.agentE with
  | .error e => .error e
  | .ok ag =>
    match InstantaneousActionRobustnessVerifier.create_action_copy fluents action
        ("_w_" ++ toString i) with
    | .error e => .error e
    | .ok base =>
      match RobustnessVerifier.get_global_version fluents fact with
      | .error e => .error e
      | .ok gfact =>
        if fact.is_not then .error .assertionError
        else
          match InstantaneousActionRobustnessVerifier.get_waiting_version fluents fact with
          | .error e => .error e
          | .ok wfact =>
            .ok { base with
                  preconditions := base.preconditions ++
                    [.notE crash_expr, .notE (waiting_app ag.name), .notE gfact],
                  effects := base.effects ++
                    [⟨wfact, .boolConst true, .boolConst true⟩,
                     ⟨waiting_app ag.name, .boolConst true, .boolConst true⟩,
                     ⟨failure_expr, .boolConst true, .boolConst true⟩] }

/-- The phantom copy `α_pc`: the local copy plus precondition `crash`. -/
def build_a_pc (fluents : List UPFluent) (action : UPInstAction) :
    Except PyError UPInstAction :=
  match InstantaneousActionRobustnessVerifier.create_action_copy fluents action "_pc" with
  | .error e => .error e
  | .ok base =>
    .ok { base with preconditions := base.preconditions ++ [crash_expr] }

/-- The phantom copy `α_pw`: the local copy plus precondition `waiting(A)`. -/
def build_a_pw (fluents : List UPFluent) (action : UPInstAction) :
    Except PyError UPInstAction :=
  match action.agentE with
  | .error e => .error e
  | .ok ag =>
    match InstantaneousActionRobustnessVerifier.create_action_copy fluents action "_pw" with
    | .error e => .error e
    | .ok base =>
      .ok { base with preconditions := base.preconditions ++ [waiting_app ag.name] }

/-- The `end_s_A` action: requires `!fin(A)` and, for each goal of `A`, its
global and its local version; sets `fin(A)` and clears `act`. -/
def build_end_s (fluents : List UPFluent) (agent : UPAgent) :
    Except PyError UPInstAction :=
  match mapE (fun g =>
      match RobustnessVerifier.get_global_version fluents g with
      | .error e => .error e
      | .ok gg =>
        match RobustnessVerifier.get_local_version fluents agent.name g with
        | .error e => .error e
        | .ok lg => .ok [gg, lg]) agent.goals with
  | .error e => .error e
  | .ok goalPres =>
    .ok { name := "end_s_" ++ agent.name,
          params := [],
          preconditions := .notE (fin_app agent.name) :: goalPres.flatten,
          preconditions_wait := [],
          effects := [⟨fin_app agent.name, .boolConst true, .boolConst true⟩,
                      ⟨act_expr, .boolConst false, .boolConst true⟩],
          agent := none }

/-- The `end_f_A_i` action for the `i`-th goal: requires `!fin(A)`, the
negated global version of that goal and the local versions of all goals;
sets `fin(A)`, clears `act` and sets `failure`. -/
def build_end_f (fluents : List UPFluent) (agent : UPAgent) (i : Nat) (goal : FNode) :
    Except PyError UPInstAction :=
  match RobustnessVerifier.get_global_version fluents goal with
  | .error e => .error e
  | .ok gg =>
    match mapE (RobustnessVerifier.get_local_version fluents agent.name) agent.goals with
    | .error e => .error e
    | .ok locs =>
      .ok { name := "end_f_" ++ agent.name ++ "_" ++ toString i,
            params := [],
            preconditions := .notE (fin_app agent.name) :: .notE gg :: locs,
            preconditions_wait := [],
            effects := [⟨fin_app agent.name, .boolConst true, .boolConst true⟩,
                        ⟨act_expr, .boolConst false, .boolConst true⟩,
                        ⟨failure_expr, .boolConst true, .boolConst true⟩],
            agent := none }

/-- The end actions the verifier adds for one agent, in source order. -/
def build_agent_end_actions (fluents : List UPFluent) (agent : UPAgent) :
    Except PyError (List UPInstAction) :=
  match build_end_s fluents agent with
  | .error e => .error e
  | .ok e_s =>
    match mapIdxE (build_end_f fluents agent) 0 agent.goals with
    | .error e => .error e
    | .ok e_fs => .ok (e_s :: e_fs)

/-- The copies the verifier adds for one original action, in source order:
the success copy, the fail copies, the wait copies and the two phantoms. -/
def build_action_copies (fluents : List UPFluent) (action : UPInstAction) :
    Except PyError (List UPInstAction) :=
  match build_a_s fluents action with
  | .error e => .error e
  | .ok a_s =>
    match mapIdxE (build_a_f fluents action) 0 (real_preconds action) with
    | .error e => .error e
    | .ok a_fs =>
      match mapIdxE (build_a_w fluents action) 0 action.preconditions_wait with
      | .error e => .error e
      | .ok a_ws =>
        match build_a_pc fluents action with
        | .error e => .error e
        | .ok a_pc =>
          match build_a_pw fluents action with
          | .error e => .error e
          | .ok a_pw => .ok (a_s :: (a_fs ++ a_ws ++ [a_pc, a_pw]))

/-- The mutable state of a `RobustnessVerifier` object: the input problem,
the `_new_problem` cache and the `agent_type` attribute set by
`prepare_rewritten_problem`. -/
structure RobustnessVerifier where
  problem : UPProblem
  new_problem : Option UPProblem
  agent_type : Option String
deriving DecidableEq

/-- A fresh verifier for the given problem (`__init__`). -/
def RobustnessVerifier.init (p : UPProblem) : RobustnessVerifier :=
  ⟨p, none, none⟩

/-- `Agent.add_obj_to_problem`: a plain agent adds its object to the
problem; an `ExistingObjectAgent` does nothing. -/
def UPAgent.add_obj_to_problem (a : UPAgent) (p : UPProblem) : Except PyError UPProblem :=
  if a.isExistingObject then .ok p else p.add_object (a.name, a.typeName)

/-- The agent loop of `prepare_rewritten_problem`: add the agent's type when
missing, record the first agent's type and `assert` every later agent has
the same type, then add the agent object. -/
def rv_prepare_agents (q : UPProblem) (atype : Option String) :
    List UPAgent → Except PyError (UPProblem × Option String)
  | [] => .ok (q, atype)
  | a :: rest =>
    match atype with
    | none =>
      match a.add_obj_to_problem (if q.types.contains a.typeName then q
          else { q with types := q.types ++ [a.typeName] }) with
      | .error e => .error e
      | .ok q2 => rv_prepare_agents q2 (some a.typeName) rest
    | some t =>
      if t == a.typeName then
        match a.add_obj_to_problem (if q.types.contains a.typeName then q
            else { q with types := q.types ++ [a.typeName] }) with
        | .error e => .error e
        | .ok q2 => rv_prepare_agents q2 (some t) rest
      else .error .assertionError

/-- The global mirror fluent `g-f`. -/
def mk_g_fluent (f : UPFluent) : UPFluent :=
  ⟨"g-" ++ f.name, f.typeName, f.signature⟩

/-- The local mirror fluent `l-f`, with an extra agent parameter. -/
def mk_l_fluent (atype : String) (f : UPFluent) : UPFluent :=
  ⟨"l-" ++ f.name, f.typeName, atype :: f.signature⟩

/-- The waiting marker fluent `w-f` (instantaneous variant: no agent
parameter). -/
def mk_w_fluent (f : UPFluent) : UPFluent :=
  ⟨"w-" ++ f.name, f.typeName, f.signature⟩

/-- The fluent loop of `prepare_rewritten_problem`: add `g-f` and `l-f` for
every input fluent. -/
def rv_add_gl_fluents (atype : String) (q : UPProblem) :
    List UPFluent → Except PyError UPProblem
  | [] => .ok q
  | f :: fs =>
    match q.add_fluent (mk_g_fluent f) with
    | .error e => .error e
    | .ok q1 =>
      match q1.add_fluent (mk_l_fluent atype f) with
      | .error e => .error e
      | .ok q2 => rv_add_gl_fluents atype q2 fs

/-- `RobustnessVerifier.prepare_rewritten_problem`: returns the cached
problem when `_new_problem` is already set; otherwise creates a fresh
problem named `slrob_<name>`, copies the user types, runs the agent loop
(with its same-type `assert`), adds the input objects and the `g-`/`l-`
mirror fluents, and caches the result. -/
def RobustnessVerifier.prepare_rewritten_problem (self : RobustnessVerifier) :
    Except PyError RobustnessVerifier :=
  match self.new_problem with
  | some _ => .ok self
  | none =>
    let q0 : UPProblem :=
      { name := "slrob_" ++ self.problem.name,
        types := self.problem.types,
        fluents := [], objects := [], agents := [], actions := [],
        initial_values := [], goals := [] }
    match rv_prepare_agents q0 none self.problem.agents with
    | .error e => .error e
    | .ok (q1, atype) =>
      match q1.add_objects self.problem.objects with
      | .error e => .error e
      | .ok q2 =>
        match rv_add_gl_fluents (atype.getD "None") q2 self.problem.fluents with
        | .error e => .error e
        | .ok q3 => .ok { self with new_problem := some q3, agent_type := atype }

/-- The `w-` fluent loop of `get_rewritten_problem`. -/
def rv_add_w_fluents (q : UPProblem) : List UPFluent → Except PyError UPProblem
  | [] => .ok q
  | f :: fs =>
    match q.add_fluent (mk_w_fluent f) with
    | .error e => .error e
    | .ok q1 => rv_add_w_fluents q1 fs

/-- The initial-state loop of `get_rewritten_problem`: each initial value is
copied to its global version and, for every agent, to that agent's local
version. -/
def rv_set_initial (fluents : List UPFluent) (agents : List UPAgent) (q : UPProblem) :
    List (FNode × FNode) → Except PyError UPProblem
  | [] => .ok q
  | (var, val) :: rest =>
    match RobustnessVerifier.get_global_version fluents var with
    | .error e => .error e
    | .ok gv =>
      match mapE (fun (ag : UPAgent) =>
          RobustnessVerifier.get_local_version fluents ag.name var) agents with
      | .error e => .error e
      | .ok lvs =>
        let q1 := lvs.foldl (fun (acc : UPProblem) lv => acc.set_initial_value lv val)
          (q.set_initial_value gv val)
        rv_set_initial fluents agents q1 rest

/-- `InstantaneousActionRobustnessVerifier.get_rewritten_problem`: prepare
the base problem (cached), then add the flag fluents `failure`, `crash`,
`act`, `fin`, `waiting` and the `w-` mirrors, the per-agent end actions, the
per-action copies, the mirrored initial state and the goal
`failure ∧ ⋀ fin(agent)`.  Note that the additions run on the cached problem
even when `prepare_rewritten_problem` returned it from the cache. -/
def InstantaneousActionRobustnessVerifier.get_rewritten_problem
    (self : RobustnessVerifier) :
    Except PyError (RobustnessVerifier × UPProblem) :=
  match self.prepare_rewritten_problem with
  | .error e => .error e
  | .ok st =>
    match st.new_problem with
    | none => .error .assertionError
    | some q0 =>
      match q0.add_fluent ⟨"failure", "bool", []⟩ with
      | .error e => .error e
      | .ok q1 =>
        match q1.add_fluent ⟨"crash", "bool", []⟩ with
        | .error e => .error e
        | .ok q2 =>
          match q2.add_fluent ⟨"act", "bool", []⟩ with
          | .error e => .error e
          | .ok q3 =>
            match q3.add_fluent ⟨"fin", "bool", [st.agent_type.getD "None"]⟩ with
            | .error e => .error e
            | .ok q4 =>
              match q4.add_fluent ⟨"waiting", "bool", [st.agent_type.getD "None"]⟩ with
              | .error e => .error e
              | .ok q5 =>
                match rv_add_w_fluents q5 st.problem.fluents with
                | .error e => .error e
                | .ok q6 =>
                  match mapE (build_agent_end_actions st.problem.fluents) st.problem.agents with
                  | .error e => .error e
                  | .ok endLists =>
                    match addActionsE q6 endLists.flatten with
                    | .error e => .error e
                    | .ok q7 =>
                      match mapE (build_action_copies st.problem.fluents) st.problem.actions with
                      | .error e => .error e
                      | .ok copyLists =>
                        match addActionsE q7 copyLists.flatten with
                        | .error e => .error e
                        | .ok q8 =>
                          match rv_set_initial st.problem.fluents st.problem.agents q8
                              st.problem.initial_values with
                          | .error e => .error e
                          | .ok q9 =>
                            .ok ({ st with new_problem := some (st.problem.agents.foldl
                                (fun (acc : UPProblem) ag => acc.add_goal (fin_app ag.name))
                                (q9.add_goal failure_expr)) },
                              st.problem.agents.foldl
                                (fun (acc : UPProblem) ag => acc.add_goal (fin_app ag.name))
                                (q9.add_goal failure_expr))

/-- The mutable state of a `SingleAgentProjection` object. -/
structure SingleAgentProjection where
  problem : UPProblem
  agent : UPAgent
  name : String
  new_problem : Option UPProblem
deriving DecidableEq

/-- A fresh projection (`__init__`, default name `sap`). -/
def SingleAgentProjection.init (p : UPProblem) (a : UPAgent) : SingleAgentProjection :=
  ⟨p, a, "sap", none⟩

/-- The agent-type loop of `SingleAgentProjection.get_rewritten_problem`:
record the first agent's type and `assert` every later agent has the same
type. -/
def sap_check_agent_types : Option String → List UPAgent → Except PyError (Option String)
  | atype, [] => .ok atype
  | none, a :: rest => sap_check_agent_types (some a.typeName) rest
  | some t, a :: rest =>
    if t == a.typeName then sap_check_agent_types (some t) rest
    else .error .assertionError

/-- Modelled from the spec: `ActionBasedTransformer.get_fresh_name` is not
under `src/`; the framework renames the copied action after the transformer
(the spec fixes no scheme, we prefix the transformer's name). -/
def get_fresh_name (tname n : String) : String := tname ++ "_" ++ n

/-- The `active-agent` fluent application for the given agent object. -/
def active_app (agentName : String) : FNode := .fluentApp "active-agent" [.obj agentName]

/-- Which actions `SingleAgentProjection` keeps: those whose agent compares
`==` to the chosen agent, or whose agent is an `ExistingObjectAgent`; an
action with no agent is dropped (`None == agent` is false in Python). -/
def SingleAgentProjection.includes (agent : UPAgent) (action : UPInstAction) : Bool :=
  match action.agent with
  | none => false
  | some ag => ag.py_eq agent || ag.isExistingObject

/-- The per-action rewrite of `SingleAgentProjection`: clear the
preconditions, re-add them, fold the waitfor preconditions in, clear the
wait list, and add the `active-agent(binding)` precondition. -/
def sap_rewrite_action (tname : String) (action : UPInstAction) :
    Except PyError UPInstAction :=
  match action.agent with
  | none => .error .assertionError
  | some ag =>
    .ok { action with
          name := get_fresh_name tname action.name,
          preconditions := action.preconditions ++ action.preconditions_wait ++
            [active_app ag.name],
          preconditions_wait := [] }

/-- The action loop of `SingleAgentProjection.get_rewritten_problem`. -/
def sap_actions_loop (tname : String) (agent : UPAgent) (q : UPProblem) :
    List UPInstAction → Except PyError UPProblem
  | [] => .ok q
  | a :: rest =>
    if SingleAgentProjection.includes agent a then
      match sap_rewrite_action tname a with
      | .error e => .error e
      | .ok a' =>
        match q.add_action a' with
        | .error e => .error e
        | .ok q' => sap_actions_loop tname agent q' rest
    else sap_actions_loop tname agent q rest

/-- `SingleAgentProjection.get_rewritten_problem`.  The renamed clone is
assigned to `_new_problem` before the agent-type check, so when the
same-type `assert` fires the half-built clone stays cached and a later call
returns it; on success the finished problem is cached.  The finished
problem keeps only the included actions (rewritten), gets the
`active-agent` fluent initialised to true for the chosen agent, and carries
exactly the chosen agent's goals. -/
def SingleAgentProjection.get_rewritten_problem (self : SingleAgentProjection) :
    SingleAgentProjection × Except PyError UPProblem :=
  match self.new_problem with
  | some q => (self, .ok q)
  | none =>
    let q0 := { self.problem with name := self.name ++ "_" ++ self.problem.name }
    match sap_check_agent_types none self.problem.agents with
    | .error e => ({ self with new_problem := some q0 }, .error e)
    | .ok atype =>
      match q0.add_fluent ⟨"active-agent", "bool", [atype.getD "None"]⟩ with
      | .error e => ({ self with new_problem := some q0 }, .error e)
      | .ok q1 =>
        let q2 := q1.set_initial_value (active_app self.agent.name) (.boolConst true)
        let q3 := { q2 with actions := [] }
        match sap_actions_loop self.name self.agent q3 self.problem.actions with
        | .error e => ({ self with new_problem := some q0 }, .error e)
        | .ok q4 =>
          let q5 := { q4 with goals := self.agent.goals }
          ({ self with new_problem := some q5 }, .ok q5)

/-- The robustness statuses (`SocialLawRobustnessStatus`). -/
inductive SocialLawRobustnessStatus where
  | ROBUST_RATIONAL
  | NON_ROBUST_SINGLE_AGENT
  | NON_ROBUST_MULTI_AGENT_FAIL
  | NON_ROBUST_MULTI_AGENT_DEADLOCK
deriving DecidableEq

/-- Python `name[-2:]`: the last two characters (the whole string when it is
shorter). -/
def last_two (s : String) : String := s.drop (s.length - 2)

/-- The counterexample scan of `SocialLaw.is_robust`: walk the plan's action
names in order; the first name whose last two characters are exactly `_f`
gives `NON_ROBUST_MULTI_AGENT_FAIL`, the first whose last two characters are
exactly `_w` gives `NON_ROBUST_MULTI_AGENT_DEADLOCK`; when no name matches
the scan falls through to `NON_ROBUST_MULTI_AGENT_FAIL`. -/
def classify_counter_example : List String → SocialLawRobustnessStatus
  | [] => .NON_ROBUST_MULTI_AGENT_FAIL
  | n :: rest =>
    if last_two n == "_f" then .NON_ROBUST_MULTI_AGENT_FAIL
    else if last_two n == "_w" then .NON_ROBUST_MULTI_AGENT_DEADLOCK
    else classify_counter_example rest

/-- The mutable state of a `SocialLaw` object: the input problem, the stored
counterexample plan (as the list of its action names) and the
`_new_problem` cache. -/
structure SocialLaw where
  problem : UPProblem
  counter_example : Option (List String)
  new_problem : Option UPProblem
deriving DecidableEq

/-- A fresh `SocialLaw` (`__init__`). -/
def SocialLaw.init (p : UPProblem) : SocialLaw := ⟨p, none, none⟩

/-- `SocialLaw.get_rewritten_problem`: the social-law rewrite does nothing;
the input problem itself is cached and returned. -/
def SocialLaw.get_rewritten_problem (self : SocialLaw) : SocialLaw × UPProblem :=
  match self.new_problem with
  | some q => (self, q)
  | none => ({ self with new_problem := some self.problem }, self.problem)

/-- The external planner, abstracted as a pure function from a problem to
`some plan` (a positive outcome, the plan given by its action names) or
`none` (no plan found). -/
abbrev Planner := UPProblem → Option (List String)

/-- `SocialLaw.is_single_agent_solvable`: for each agent build the
single-agent projection and call the planner; false on the first
projection the planner does not solve. -/
def SocialLaw.is_single_agent_solvable (planner : Planner) (self : SocialLaw) :
    SocialLaw × Except PyError Bool :=
  let (st, problem) := self.get_rewritten_problem
  (st, go problem problem.agents)
where
  go (problem : UPProblem) : List UPAgent → Except PyError Bool
    | [] => .ok true
    | ag :: rest =>
      match (SingleAgentProjection.init problem ag).get_rewritten_problem.2 with
      | .error e => .error e
      | .ok sapq =>
        match planner sapq with
        | some _ => go problem rest
        | none => .ok false

/-- `SocialLaw.is_multi_agent_robust`: clear the stored counterexample,
build the robustness-verification problem and call the planner directly on
it; a positive outcome stores the plan as the counterexample and returns
false, otherwise true.  (The source also writes the problem to two PDDL
files, which has no bearing on the result.)  The `RobustnessVerifier base`
dispatch is modelled from the spec as the instantaneous verifier's
rewrite. -/
def SocialLaw.is_multi_agent_robust (planner : Planner) (self : SocialLaw) :
    SocialLaw × Except PyError Bool :=
  match InstantaneousActionRobustnessVerifier.get_rewritten_problem
      (RobustnessVerifier.init
        ({ self with counter_example := none } : SocialLaw).get_rewritten_problem.2) with
  | .error e =>
    (({ self with counter_example := none } : SocialLaw).get_rewritten_problem.1, .error e)
  | .ok (_, rv_problem) =>
    match planner rv_problem with
    | some plan =>
      ({ ({ self with counter_example := none } : SocialLaw).get_rewritten_problem.1 with
         counter_example := some plan }, .ok false)
    | none =>
      (({ self with counter_example := none } : SocialLaw).get_rewritten_problem.1, .ok true)

/-- `SocialLaw.is_robust`: sequence the single-agent check and the
multi-agent check and classify a counterexample by the suffix scan. -/
def SocialLaw.is_robust (planner : Planner) (self : SocialLaw) :
    SocialLaw × Except PyError SocialLawRobustnessStatus :=
  match self.is_single_agent_solvable planner with
  | (st, .error e) => (st, .error e)
  | (st, .ok false) => (st, .ok .NON_ROBUST_SINGLE_AGENT)
  | (st, .ok true) =>
    match st.is_multi_agent_robust planner with
    | (st', .error e) => (st', .error e)
    | (st', .ok false) =>
      match st'.counter_example with
      | some plan => (st', .ok (classify_counter_example plan))
      | none => (st', .error .assertionError)
    | (st', .ok true) => (st', .ok .ROBUST_RATIONAL)

mutual

/-- Whether a negation occurs anywhere in the expression (the spec's
`HAS_NEGATIVE_CONDITIONS` feature flag looks for negative conditions). -/
def fnode_has_not : FNode → Bool
  | .fluentApp _ _ => false
  | .notE _ => true
  | .andE fs => fnode_list_has_not fs
  | .boolConst _ => false

/-- `fnode_has_not` over a list. -/
def fnode_list_has_not : List FNode → Bool
  | [] => false
  | f :: fs => fnode_has_not f || fnode_list_has_not fs

end

/-- Modelled from the spec: the `kind()` feature flag
`HAS_NEGATIVE_CONDITIONS` of a problem — some negation occurs in an
action's (wait) preconditions or effect conditions, or in a goal.  The
negative-conditions remover's contract is that its output has this flag
false. -/
def UPProblem.has_negative_conditions (q : UPProblem) : Bool :=
  q.actions.any (fun a =>
    fnode_list_has_not a.preconditions ||
    fnode_list_has_not a.preconditions_wait ||
    a.effects.any (fun e => fnode_has_not e.condition)) ||
  fnode_list_has_not q.goals

/-- A ground atom: a fluent name applied to object names. -/
abbrev GroundAtom := String × List String

/-- A ground state: a truth value for every ground atom. -/
abbrev GState := GroundAtom → Bool

/-- Ground a term under a parameter binding (objects name themselves). -/
def ground_term (σ : String → String) : UPTerm → String
  | .param n => σ n
  | .obj n => n

mutual

/-- Evaluate an expression in a ground state under a parameter binding. -/
def geval (σ : String → String) (s : GState) : FNode → Bool
  | .fluentApp n args => s (n, args.map (ground_term σ))
  | .notE f => ! geval σ s f
  | .andE fs => geval_list σ s fs
  | .boolConst b => b

/-- Conjunction of `geval` over a list. -/
def geval_list (σ : String → String) (s : GState) : List FNode → Bool
  | [] => true
  | f :: fs => geval σ s f && geval_list σ s fs

end

/-- The ground atom an effect writes (the target must be a fluent
application). -/
def effect_ground_target (σ : String → String) (e : UPEffect) : Option GroundAtom :=
  match e.fluent with
  | .fluentApp n args => some (n, args.map (ground_term σ))
  | _ => none

/-- Apply a ground action instance: an atom written by some effect whose
condition holds takes the (pre-state) value of the last such effect; every
other atom is unchanged. -/
def apply_action (σ : String → String) (a : UPInstAction) (s : GState) : GState :=
  fun atom =>
    let hits := a.effects.filterMap (fun e =>
      if effect_ground_target σ e = some atom ∧ geval σ s e.condition = true then
        some (geval σ s e.value)
      else none)
    hits.getLast?.getD (s atom)

/-- A single executable step of a problem: a ground instance of one of its
actions whose preconditions all evaluate to true. -/
inductive ProblemStep (q : UPProblem) : GState → GState → Prop where
  | mk (a : UPInstAction) (σ : String → String) (s : GState)
      (ha : a ∈ q.actions)
      (hexec : geval_list σ s a.preconditions = true) :
      ProblemStep q s (apply_action σ a s)

/-- Executable action sequences: the reflexive-transitive closure of
`ProblemStep`. -/
inductive ProblemReach (q : UPProblem) : GState → GState → Prop where
  | refl (s : GState) : ProblemReach q s s
  | tail {s t u : GState} : ProblemReach q s t → ProblemStep q t u → ProblemReach q s u

/-- The name an effect's target fluent application carries. -/
def effect_target_name (e : UPEffect) : String :=
  match e.fluent with
  | .fluentApp n _ => n
  | _ => ""

/-- No effect of the action can make `crash` false: every effect whose
target is the `crash` fluent has the constant value `True`. -/
def crash_safe (a : UPInstAction) : Prop :=
  ∀ e ∈ a.effects, effect_target_name e ≠ "crash" ∨ e.value = .boolConst true

/-- The heap of Python list objects backing agent goal lists.  CPython
evaluates a default argument once, at function definition time, so
`Agent.__init__`'s `goals: List[FNode] = list()` allocates a single list
shared by every construction that omits `goals`; reference 0 is that
default list. -/
structure AgentGoalsHeap where
  lists : List (List FNode)
deriving DecidableEq

/-- The heap at interpreter start: only the default list, empty. -/
def AgentGoalsHeap.start : AgentGoalsHeap := ⟨[[]]⟩

/-- Read a list reference. -/
def AgentGoalsHeap.read (h : AgentGoalsHeap) (r : Nat) : List FNode :=
  h.lists.getD r []

/-- Overwrite a list reference in place. -/
def AgentGoalsHeap.write (h : AgentGoalsHeap) (r : Nat) (l : List FNode) : AgentGoalsHeap :=
  ⟨h.lists.set r l⟩

/-- An `Agent` object as `agent.py` builds it: a name, the agent-type name
and a reference to its goals list. -/
structure Agent where
  name : String
  agent_type_name : String
  goals_ref : Nat
deriving DecidableEq

/-- `Agent(name)` with the `goals` argument omitted: the object's goals
reference is the shared default list (reference 0). -/
def Agent.mk_default (name : String) : Agent := ⟨name, "agent", 0⟩

/-- `Agent(name, goals=gs)` with an explicit goals list: a fresh list object
is allocated for it. -/
def Agent.mk_with_goals (h : AgentGoalsHeap) (name : String) (gs : List FNode) :
    AgentGoalsHeap × Agent :=
  (⟨h.lists ++ [gs]⟩, ⟨name, "agent", h.lists.length⟩)

/-- `Agent.add_goal`: the goal (a Boolean expression) is appended to the
agent's goals list unless it equals the constant `TRUE`. -/
def Agent.add_goal (h : AgentGoalsHeap) (a : Agent) (g : FNode) : AgentGoalsHeap :=
  if g = .boolConst true then h else h.write a.goals_ref (h.read a.goals_ref ++ [g])

/-- `Agent.goals`: dereference the agent's goals list. -/
def Agent.goals (h : AgentGoalsHeap) (a : Agent) : List FNode :=
  h.read a.goals_ref

/-- C1 input: one agent `ag1` with goal `f3`, one action `a11` with waitfor
precondition `f3` (the shape of the repository's `test_counterexample`). -/
def ag_c1 : UPAgent := ⟨"ag1", "agent", [.fluentApp "f3" []], false⟩

/-- C1 input action: agent `ag1`, waitfor `f3`, no effects. -/
def a11_c1 : UPInstAction := ⟨"a11", [], [], [.fluentApp "f3" []], [], some ag_c1⟩

/-- C1 input problem. -/
def p_c1 : UPProblem :=
  ⟨"ce", ["agent"], [⟨"f3", "bool", []⟩], [], [ag_c1], [a11_c1],
   [(.fluentApp "f3" [], .boolConst false)], []⟩

/-- C1 planner: solves every single-agent projection with the empty plan and
answers the verifier's problem with the deadlock counterexample plan
`[a11_w_0]` (that problem is the only one containing an action of that
name). -/
def planner_c1 : Planner := fun q =>
  if q.actions.any (fun a => a.name == "a11_w_0") then some ["a11_w_0"] else some []

/-- C2 input: one agent, one fluent, no actions. -/
def ag_c2 : UPAgent := ⟨"agA", "agent", [.fluentApp "h" []], false⟩

/-- C2 input problem. -/
def p_c2 : UPProblem := ⟨"p2", ["agent"], [⟨"h", "bool", []⟩], [], [ag_c2], [], [], []⟩

/-- C3 counterexample: first plain agent. -/
def ag1_c3 : UPAgent := ⟨"ag1", "agent", [.fluentApp "h1" []], false⟩

/-- C3 counterexample: second plain agent. -/
def ag2_c3 : UPAgent := ⟨"ag2", "agent", [.fluentApp "h2" []], false⟩

/-- C3 counterexample: an action bound to the second (plain) agent. -/
def act2_c3 : UPInstAction :=
  ⟨"a21", [], [], [], [⟨.fluentApp "h2" [], .boolConst true, .boolConst true⟩], some ag2_c3⟩

/-- C3 counterexample problem: projecting on `ag1` drops `a21`. -/
def p_c3 : UPProblem :=
  ⟨"p3", ["agent"], [⟨"h1", "bool", []⟩, ⟨"h2", "bool", []⟩], [], [ag1_c3, ag2_c3],
   [act2_c3], [], []⟩

/-- C3 witness input: an `ExistingObjectAgent`. -/
def agw_c3 : UPAgent := ⟨"c1", "car", [.fluentApp "g1" []], true⟩

/-- C3 witness input: an action with one precondition and one waitfor. -/
def actw_c3 : UPInstAction :=
  ⟨"drive", [], [.fluentApp "p1" []], [.fluentApp "q1" []], [], some agw_c3⟩

/-- C3 witness problem. -/
def p_c3w : UPProblem :=
  ⟨"p3w", ["car"], [⟨"p1", "bool", []⟩, ⟨"q1", "bool", []⟩, ⟨"g1", "bool", []⟩],
   [("c1", "car")], [agw_c3], [actw_c3], [], []⟩

/-- C4 input agent. -/
def ag_c4 : UPAgent := ⟨"agB", "agent", [.fluentApp "k" []], false⟩

/-- C4 input problem. -/
def p_c4 : UPProblem := ⟨"p4", ["agent"], [⟨"k", "bool", []⟩], [], [ag_c4], [], [], []⟩

/-- C4 planner: answers exactly the problems that still contain negative
conditions, so a returned plan proves the planner's input was not the
negative-conditions-removed problem. -/
def planner_neg : Planner := fun q =>
  if q.has_negative_conditions then some ["neg"] else none

/-- C5 witness agent. -/
def ag_c5 : UPAgent := ⟨"a5", "agent", [], false⟩

/-- C5 witness fluents. -/
def fl_c5 : List UPFluent := [⟨"p5", "bool", []⟩, ⟨"q5", "bool", []⟩, ⟨"r5", "bool", []⟩]

/-- C5 witness action: one precondition, one waitfor, one true-valued
effect. -/
def act_c5 : UPInstAction :=
  ⟨"m5", [], [.fluentApp "p5" []], [.fluentApp "q5" []],
   [⟨.fluentApp "r5" [], .boolConst true, .boolConst true⟩], some ag_c5⟩

/-- C6 input: first agent with goal `h1`. -/
def ag1_c6 : UPAgent := ⟨"ag1", "agent", [.fluentApp "h1" []], false⟩

/-- C6 input: second agent with goal `h2`. -/
def ag2_c6 : UPAgent := ⟨"ag2", "agent", [.fluentApp "h2" []], false⟩

/-- C6 input problem: two agents, no actions. -/
def p_c6 : UPProblem :=
  ⟨"p6", ["agent"], [⟨"h1", "bool", []⟩, ⟨"h2", "bool", []⟩], [], [ag1_c6, ag2_c6], [], [], []⟩

/-- The `end_s_ag1` action the verifier emits for `p_c6` (checked against
the computed output in the counterexample theorem). -/
def end_s_ag1_c6 : UPInstAction :=
  ⟨"end_s_ag1", [],
   [.notE (.fluentApp "fin" [.obj "ag1"]), .fluentApp "g-h1" [], .fluentApp "l-h1" [.obj "ag1"]],
   [],
   [⟨.fluentApp "fin" [.obj "ag1"], .boolConst true, .boolConst true⟩,
    ⟨.fluentApp "act" [], .boolConst false, .boolConst true⟩],
   none⟩

/-- C6 state: `act` is true, `ag1`'s goal holds globally and locally, no
agent has finished. -/
def s_c6 : GState := fun atom =>
  decide (atom = ("g-h1", []) ∨ atom = ("l-h1", ["ag1"]) ∨ atom = ("act", []))

/-- C7 input: an agent of type `agent`. -/
def agx_c7 : UPAgent := ⟨"x7", "agent", [], false⟩

/-- C7 input: an agent of type `robot`. -/
def agy_c7 : UPAgent := ⟨"y7", "robot", [], false⟩

/-- C7 input problem: two agents of different types. -/
def p_c7 : UPProblem := ⟨"p7", ["agent", "robot"], [], [], [agx_c7, agy_c7], [], [], []⟩

/-- C7 witness inputs: another heterogeneous pair. -/
def agx_c7w : UPAgent := ⟨"u7", "truck", [], false⟩

/-- C7 witness: second agent. -/
def agy_c7w : UPAgent := ⟨"v7", "plane", [], false⟩

/-- C7 witness problem. -/
def p_c7w : UPProblem := ⟨"p7w", ["truck", "plane"], [], [], [agx_c7w, agy_c7w], [], [], []⟩

/-- C8 input agent. -/
def ag_c8 : UPAgent := ⟨"agC", "agent", [.fluentApp "h8" []], false⟩

/-- C8 input action: one precondition `h8`, no effects. -/
def act_c8 : UPInstAction := ⟨"b8", [], [.fluentApp "h8" []], [], [], some ag_c8⟩

/-- C8 input problem. -/
def p_c8 : UPProblem :=
  ⟨"p8", ["agent"], [⟨"h8", "bool", []⟩], [], [ag_c8], [act_c8], [], []⟩

/-- The phantom copy `b8_pc` the verifier emits for `p_c8`. -/
def b8_pc : UPInstAction :=
  ⟨"b8_pc", [], [act_expr, .fluentApp "l-h8" [.obj "agC"], crash_expr], [], [], none⟩

/-- C8 state: `crash` already true, `act` true and `b8`'s local precondition
true, so the phantom copy is executable. -/
def s_c8 : GState := fun atom =>
  decide (atom = ("crash", []) ∨ atom = ("act", []) ∨ atom = ("l-h8", ["agC"]))

/-- C9 witness agent. -/
def ag_c9 : UPAgent := ⟨"a9", "agent", [], false⟩

/-- C9 witness fluents. -/
def fl_c9 : List UPFluent := [⟨"p9", "bool", []⟩, ⟨"r9", "bool", []⟩]

/-- C9 witness action: one precondition and one effect. -/
def act_c9 : UPInstAction :=
  ⟨"m9", [], [.fluentApp "p9" []], [],
   [⟨.fluentApp "r9" [], .boolConst true, .boolConst true⟩], some ag_c9⟩

/-- C9 witness state: everything false. -/
def s_c9 : GState := fun _ => false

/-- Some two agents of the list have different agent-object types
(equivalently: some agent's type differs from the first agent's). -/
def agents_hetero : List UPAgent → Bool
  | [] => false
  | a :: rest => rest.any (fun b => b.typeName != a.typeName)

/-- The success copy the verifier builds for the witness action `act_c5`. -/
def a_s_c5 : UPInstAction :=
  ⟨"m5_s", [],
   [act_expr, .fluentApp "l-p5" [.obj "a5"], .fluentApp "l-q5" [.obj "a5"],
    .notE (waiting_app "a5"), .notE crash_expr, .notE (.fluentApp "w-r5" []),
    .fluentApp "g-p5" [], .fluentApp "g-q5" []],
   [],
   [⟨.fluentApp "l-r5" [.obj "a5"], .boolConst true, .boolConst true⟩,
    ⟨.fluentApp "g-r5" [], .boolConst true, .boolConst true⟩],
   none⟩

/-- The success copy the verifier builds for the witness action `act_c9`. -/
def a_s_c9 : UPInstAction :=
  ⟨"m9_s", [],
   [act_expr, .fluentApp "l-p9" [.obj "a9"],
    .notE (waiting_app "a9"), .notE crash_expr, .notE (.fluentApp "w-r9" []),
    .fluentApp "g-p9" []],
   [],
   [⟨.fluentApp "l-r9" [.obj "a9"], .boolConst true, .boolConst true⟩,
    ⟨.fluentApp "g-r9" [], .boolConst true, .boolConst true⟩],
   none⟩

/-- The problem the projection produces for `p_c3w` and agent `agw_c3`. -/
def q_c3w : UPProblem :=
  ⟨"sap_p3w", ["car"],
   [⟨"p1", "bool", []⟩, ⟨"q1", "bool", []⟩, ⟨"g1", "bool", []⟩,
    ⟨"active-agent", "bool", ["car"]⟩],
   [("c1", "car")], [agw_c3],
   [⟨"sap_drive", [], [.fluentApp "p1" [], .fluentApp "q1" [], active_app "c1"], [], [],
     some agw_c3⟩],
   [(active_app "c1", .boolConst true)],
   [.fluentApp "g1" []]⟩

theorem list_getLast?_mem {α : Type} {l : List α} {a : α} (h : l.getLast? = some a) :
    a ∈ l := by
  induction l with
  | nil => simp at h
  | cons x xs ih =>
    cases xs with
    | nil => simp_all
    | cons y ys =>
      rw [List.getLast?_cons_cons] at h
      exact List.mem_cons_of_mem _ (ih h)

theorem mapE_ok_forall {α β : Type} {f : α → Except PyError β} {xs : List α} {ys : List β}
    (h : mapE f xs = .ok ys) : ∀ x ∈ xs, ∃ y, f x = .ok y ∧ y ∈ ys := by
  induction xs generalizing ys with
  | nil => simp
  | cons x' xs ih =>
    intro x hx
    simp only [mapE] at h
    split at h
    · exact absurd h (by simp)
    · rename_i y hfx
      split at h
      · exact absurd h (by simp)
      · rename_i ys' hm
        cases h
        rcases List.mem_cons.mp hx with rfl | hx'
        · exact ⟨y, hfx, List.mem_cons_self _ _⟩
        · obtain ⟨y', h1, h2⟩ := ih hm x hx'
          exact ⟨y', h1, List.mem_cons_of_mem _ h2⟩

theorem mapE_ok_mem {α β : Type} {f : α → Except PyError β} {xs : List α} {ys : List β}
    (h : mapE f xs = .ok ys) : ∀ y ∈ ys, ∃ x ∈ xs, f x = .ok y := by
  induction xs generalizing ys with
  | nil =>
    simp only [mapE, Except.ok.injEq] at h
    subst h
    simp
  | cons x' xs ih =>
    intro y hy
    simp only [mapE] at h
    split at h
    · exact absurd h (by simp)
    · rename_i y' hfx
      split at h
      · exact absurd h (by simp)
      · rename_i ys' hm
        cases h
        rcases List.mem_cons.mp hy with rfl | hy'
        · exact ⟨x', List.mem_cons_self _ _, hfx⟩
        · obtain ⟨x, h1, h2⟩ := ih hm y hy'
          exact ⟨x, List.mem_cons_of_mem _ h1, h2⟩

theorem mapIdxE_ok_mem {α β : Type} {f : Nat → α → Except PyError β} {i : Nat}
    {xs : List α} {ys : List β} (h : mapIdxE f i xs = .ok ys) :
    ∀ y ∈ ys, ∃ j x, x ∈ xs ∧ f j x = .ok y := by
  induction xs generalizing i ys with
  | nil =>
    simp only [mapIdxE, Except.ok.injEq] at h
    subst h
    simp
  | cons x' xs ih =>
    intro y hy
    simp only [mapIdxE] at h
    split at h
    · exact absurd h (by simp)
    · rename_i y' hfx
      split at h
      · exact absurd h (by simp)
      · rename_i ys' hm
        cases h
        rcases List.mem_cons.mp hy with rfl | hy'
        · exact ⟨i, x', List.mem_cons_self _ _, hfx⟩
        · obtain ⟨j, x, h1, h2⟩ := ih hm y hy'
          exact ⟨j, x, List.mem_cons_of_mem _ h1, h2⟩

theorem add_action_ok {p : UPProblem} {a : UPInstAction} {p' : UPProblem}
    (h : p.add_action a = .ok p') :
    p' = { p with actions := p.actions ++ [a] } := by
  unfold UPProblem.add_action at h
  split at h
  · exact absurd h (by simp)
  · simpa using h.symm

theorem add_fluent_ok {p : UPProblem} {f : UPFluent} {p' : UPProblem}
    (h : p.add_fluent f = .ok p') :
    p' = { p with fluents := p.fluents ++ [f] } := by
  unfold UPProblem.add_fluent at h
  split at h
  · exact absurd h (by simp)
  · simpa using h.symm

theorem add_object_ok {p : UPProblem} {o : String × String} {p' : UPProblem}
    (h : p.add_object o = .ok p') :
    p' = { p with objects := p.objects ++ [o] } := by
  unfold UPProblem.add_object at h
  split at h
  · exact absurd h (by simp)
  · simpa using h.symm

theorem addActionsE_ok {l : List UPInstAction} : ∀ {q q' : UPProblem},
    addActionsE q l = .ok q' →
    q'.actions = q.actions ++ l ∧ q'.fluents = q.fluents ∧ q'.goals = q.goals ∧
    q'.agents = q.agents ∧ q'.initial_values = q.initial_values := by
  induction l with
  | nil =>
    intro q q' h
    simp only [addActionsE, Except.ok.injEq] at h
    subst h
    simp
  | cons a rest ih =>
    intro q q' h
    simp only [addActionsE] at h
    split at h
    · exact absurd h (by simp)
    · rename_i q1 hq1
      have h1 := add_action_ok hq1
      subst h1
      obtain ⟨e1, e2, e3, e4, e5⟩ := ih h
      refine ⟨?_, by simpa using e2, by simpa using e3, by simpa using e4, by simpa using e5⟩
      rw [e1]
      simp

theorem append_ne_of_head {p s : String} {c d : Char} {cs ds : List Char}
    (hp : p.data = c :: cs) (hs : s.data = d :: ds) (hcd : c ≠ d) (n : String) :
    p ++ n ≠ s := by
  intro h
  have hd : (p ++ n).data = s.data := congrArg String.data h
  rw [String.data_append, hp, hs] at hd
  exact hcd (by simpa using congrArg (fun l => l.head?) hd)

theorem append2_ne_of_head {p q : String} {c d : Char} {cs ds : List Char}
    (hp : p.data = c :: cs) (hq : q.data = d :: ds) (hcd : c ≠ d) (n m : String) :
    p ++ n ≠ q ++ m := by
  intro h
  have hd : (p ++ n).data = (q ++ m).data := congrArg String.data h
  rw [String.data_append, String.data_append, hp, hq] at hd
  exact hcd (by simpa using congrArg (fun l => l.head?) hd)

theorem l_ne_crash (n : String) : "l-" ++ n ≠ "crash" :=
  append_ne_of_head (show "l-".data = 'l' :: ['-'] from rfl)
    (show "crash".data = 'c' :: ['r', 'a', 's', 'h'] from rfl) (by decide) n

theorem g_ne_crash (n : String) : "g-" ++ n ≠ "crash" :=
  append_ne_of_head (show "g-".data = 'g' :: ['-'] from rfl)
    (show "crash".data = 'c' :: ['r', 'a', 's', 'h'] from rfl) (by decide) n

theorem w_ne_crash (n : String) : "w-" ++ n ≠ "crash" :=
  append_ne_of_head (show "w-".data = 'w' :: ['-'] from rfl)
    (show "crash".data = 'c' :: ['r', 'a', 's', 'h'] from rfl) (by decide) n

theorem g_ne_l (n m : String) : "g-" ++ n ≠ "l-" ++ m :=
  append2_ne_of_head (show "g-".data = 'g' :: ['-'] from rfl)
    (show "l-".data = 'l' :: ['-'] from rfl) (by decide) n m

theorem get_local_version_ok_cases {fluents : List UPFluent} {agentName : String}
    {fact g : FNode}
    (h : RobustnessVerifier.get_local_version fluents agentName fact = .ok g) :
    (∃ n args, fact = .fluentApp n args ∧
      g = .fluentApp ("l-" ++ n) (.obj agentName :: args)) ∨
    (∃ n args, fact = .notE (.fluentApp n args) ∧
      g = .notE (.fluentApp ("l-" ++ n) (.obj agentName :: args))) := by
  unfold RobustnessVerifier.get_local_version at h
  split at h
  · rename_i n args
    split at h
    · exact Or.inl ⟨n, args, rfl, by simpa using h.symm⟩
    · exact absurd h (by simp)
  · rename_i n args
    split at h
    · exact Or.inr ⟨n, args, rfl, by simpa using h.symm⟩
    · exact absurd h (by simp)
  · exact absurd h (by simp)

theorem get_global_version_ok_cases {fluents : List UPFluent} {fact g : FNode}
    (h : RobustnessVerifier.get_global_version fluents fact = .ok g) :
    (∃ n args, fact = .fluentApp n args ∧ g = .fluentApp ("g-" ++ n) args) ∨
    (∃ n args, fact = .notE (.fluentApp n args) ∧ g = .notE (.fluentApp ("g-" ++ n) args)) := by
  unfold RobustnessVerifier.get_global_version at h
  split at h
  · rename_i n args
    split at h
    · exact Or.inl ⟨n, args, rfl, by simpa using h.symm⟩
    · exact absurd h (by simp)
  · rename_i n args
    split at h
    · exact Or.inr ⟨n, args, rfl, by simpa using h.symm⟩
    · exact absurd h (by simp)
  · exact absurd h (by simp)

theorem get_waiting_version_ok_cases {fluents : List UPFluent} {fact g : FNode}
    (h : InstantaneousActionRobustnessVerifier.get_waiting_version fluents fact = .ok g) :
    (∃ n args, fact = .fluentApp n args ∧ g = .fluentApp ("w-" ++ n) args) ∨
    (∃ n args, fact = .notE (.fluentApp n args) ∧ g = .notE (.fluentApp ("w-" ++ n) args)) := by
  unfold InstantaneousActionRobustnessVerifier.get_waiting_version at h
  split at h
  · rename_i n args
    split at h
    · exact Or.inl ⟨n, args, rfl, by simpa using h.symm⟩
    · exact absurd h (by simp)
  · rename_i n args
    split at h
    · exact Or.inr ⟨n, args, rfl, by simpa using h.symm⟩
    · exact absurd h (by simp)
  · exact absurd h (by simp)

theorem mk_effect_ok {f v : FNode} {ee : UPEffect} (h : mk_effect f v = .ok ee) :
    (∃ n args, f = .fluentApp n args) ∧ ee = ⟨f, v, .boolConst true⟩ := by
  unfold mk_effect at h
  split at h
  · rename_i n args
    exact ⟨⟨n, args, rfl⟩, by simpa using h.symm⟩
  · exact absurd h (by simp)

theorem local_effect_ok {fluents : List UPFluent} {agentName : String} {e ee : UPEffect}
    (h : local_effect fluents agentName e = .ok ee) :
    ∃ n args, RobustnessVerifier.get_local_version fluents agentName e.fluent =
        .ok (.fluentApp ("l-" ++ n) (.obj agentName :: args)) ∧
      ee = ⟨.fluentApp ("l-" ++ n) (.obj agentName :: args), e.value, .boolConst true⟩ := by
  unfold local_effect at h
  split at h
  · exact absurd h (by simp)
  · rename_i lf hlf
    obtain ⟨⟨n, args, hfa⟩, hee⟩ := mk_effect_ok h
    subst hfa
    rcases get_local_version_ok_cases hlf with ⟨n', args', _, hshape⟩ | ⟨n', args', _, hshape⟩
    · obtain ⟨h1, h2⟩ := FNode.fluentApp.inj hshape
      exact ⟨n', args', by rw [hlf, hshape], by rw [hee, hshape]⟩
    · exact absurd hshape (by simp)

theorem global_effect_ok {fluents : List UPFluent} {e ee : UPEffect}
    (h : global_effect fluents e = .ok ee) :
    ∃ n args, RobustnessVerifier.get_global_version fluents e.fluent =
        .ok (.fluentApp ("g-" ++ n) args) ∧
      ee = ⟨.fluentApp ("g-" ++ n) args, e.value, .boolConst true⟩ := by
  unfold global_effect at h
  split at h
  · exact absurd h (by simp)
  · rename_i gf hgf
    obtain ⟨⟨n, args, hfa⟩, hee⟩ := mk_effect_ok h
    subst hfa
    rcases get_global_version_ok_cases hgf with ⟨n', args', _, hshape⟩ | ⟨n', args', _, hshape⟩
    · exact ⟨n', args', by rw [hgf, hshape], by rw [hee, hshape]⟩
    · exact absurd hshape (by simp)

theorem waiting_pre_ok {fluents : List UPFluent} {e : UPEffect} {w' : FNode}
    (h : waiting_pre fluents e = .ok w') :
    ∃ w, InstantaneousActionRobustnessVerifier.get_waiting_version fluents e.fluent = .ok w ∧
      w' = .notE w := by
  unfold waiting_pre at h
  split at h
  · exact absurd h (by simp)
  · rename_i w hw
    exact ⟨w, hw, by simpa using h.symm⟩

theorem agentE_ok {a : UPInstAction} {ag : UPAgent} (h : a.agentE = .ok ag) :
    a.agent = some ag := by
  unfold UPInstAction.agentE at h
  split at h
  · rename_i ag' hag'
    rw [hag']
    exact congrArg some (by simpa using h)
  · exact absurd h (by simp)

theorem create_action_copy_ok {fluents : List UPFluent} {action : UPInstAction}
    {suffix : String} {c : UPInstAction}
    (h : InstantaneousActionRobustnessVerifier.create_action_copy fluents action suffix = .ok c) :
    ∃ ag pres effs,
      action.agent = some ag ∧
      mapE (RobustnessVerifier.get_local_version fluents ag.name)
        ((action.preconditions ++ action.preconditions_wait).flatMap flatten_fact) = .ok pres ∧
      mapE (local_effect fluents ag.name) action.effects = .ok effs ∧
      c = { name := action.name ++ suffix, params := action.params,
            preconditions := act_expr :: pres, preconditions_wait := [],
            effects := effs, agent := none } := by
  unfold InstantaneousActionRobustnessVerifier.create_action_copy at h
  split at h
  · exact absurd h (by simp)
  · rename_i ag hag
    split at h
    · exact absurd h (by simp)
    · rename_i pres hpres
      split at h
      · exact absurd h (by simp)
      · rename_i effs heffs
        injection h with h2
        subst h2
        exact ⟨ag, pres, effs, agentE_ok hag, hpres, heffs, rfl⟩

theorem build_a_s_ok {fluents : List UPFluent} {action : UPInstAction} {a : UPInstAction}
    (h : build_a_s fluents action = .ok a) :
    ∃ ag base wpres gpres geffs,
      action.agent = some ag ∧
      InstantaneousActionRobustnessVerifier.create_action_copy fluents action "_s" = .ok base ∧
      mapE (waiting_pre fluents) (action.effects.filter (fun e => e.value.is_true)) = .ok wpres ∧
      mapE (RobustnessVerifier.get_global_version fluents)
        ((action.preconditions ++ action.preconditions_wait).flatMap flatten_fact) = .ok gpres ∧
      mapE (global_effect fluents) action.effects = .ok geffs ∧
      a.preconditions = base.preconditions ++
        [.notE (waiting_app ag.name), .notE crash_expr] ++ wpres ++ gpres ∧
      a.effects = base.effects ++ geffs := by
  unfold build_a_s at h
  split at h
  · exact absurd h (by simp)
  · rename_i ag hag
    split at h
    · exact absurd h (by simp)
    · rename_i base hbase
      split at h
      · exact absurd h (by simp)
      · rename_i wpres hwpres
        split at h
        · exact absurd h (by simp)
        · rename_i gpres hgpres
          split at h
          · exact absurd h (by simp)
          · rename_i geffs hgeffs
            injection h with h2
            subst h2
            exact ⟨ag, base, wpres, gpres, geffs, agentE_ok hag, hbase, hwpres,
              hgpres, hgeffs, rfl, rfl⟩

theorem build_a_f_ok {fluents : List UPFluent} {action : UPInstAction} {i : Nat}
    {fact : FNode} {a : UPInstAction} (h : build_a_f fluents action i fact = .ok a) :
    ∃ base, InstantaneousActionRobustnessVerifier.create_action_copy fluents action
        ("_f_" ++ toString i) = .ok base ∧
      a.effects = base.effects ++
        [⟨failure_expr, .boolConst true, .boolConst true⟩,
         ⟨crash_expr, .boolConst true, .boolConst true⟩] := by
  unfold build_a_f at h
  split at h
  · exact absurd h (by simp)
  · split at h
    · exact absurd h (by simp)
    · rename_i base hbase
      split at h
      · exact absurd h (by simp)
      · split at h
        · exact absurd h (by simp)
        · injection h with h2
          subst h2
          exact ⟨base, hbase, rfl⟩

theorem build_a_w_ok {fluents : List UPFluent} {action : UPInstAction} {i : Nat}
    {fact : FNode} {a : UPInstAction} (h : build_a_w fluents action i fact = .ok a) :
    ∃ base wfact, InstantaneousActionRobustnessVerifier.create_action_copy fluents action
        ("_w_" ++ toString i) = .ok base ∧
      InstantaneousActionRobustnessVerifier.get_waiting_version fluents fact = .ok wfact ∧
      ∃ ag, action.agent = some ag ∧
      a.effects = base.effects ++
        [⟨wfact, .boolConst true, .boolConst true⟩,
         ⟨waiting_app ag.name, .boolConst true, .boolConst true⟩,
         ⟨failure_expr, .boolConst true, .boolConst true⟩] := by
  unfold build_a_w at h
  split at h
  · exact absurd h (by simp)
  · rename_i ag hag
    split at h
    · exact absurd h (by simp)
    · rename_i base hbase
      split at h
      · exact absurd h (by simp)
      · split at h
        · exact absurd h (by simp)
        · split at h
          · exact absurd h (by simp)
          · rename_i wfact hwfact
            injection h with h2
            subst h2
            exact ⟨base, wfact, hbase, hwfact, ag, agentE_ok hag, rfl⟩

theorem build_a_pc_ok {fluents : List UPFluent} {action : UPInstAction} {a : UPInstAction}
    (h : build_a_pc fluents action = .ok a) :
    ∃ base, InstantaneousActionRobustnessVerifier.create_action_copy fluents action "_pc" =
        .ok base ∧ a.effects = base.effects := by
  unfold build_a_pc at h
  split at h
  · exact absurd h (by simp)
  · rename_i base hbase
    injection h with h2
    subst h2
    exact ⟨base, hbase, rfl⟩

theorem build_a_pw_ok {fluents : List UPFluent} {action : UPInstAction} {a : UPInstAction}
    (h : build_a_pw fluents action = .ok a) :
    ∃ base, InstantaneousActionRobustnessVerifier.create_action_copy fluents action "_pw" =
        .ok base ∧ a.effects = base.effects := by
  unfold build_a_pw at h
  split at h
  · exact absurd h (by simp)
  · split at h
    · exact absurd h (by simp)
    · rename_i base hbase
      injection h with h2
      subst h2
      exact ⟨base, hbase, rfl⟩

theorem build_end_s_ok {fluents : List UPFluent} {agent : UPAgent} {a : UPInstAction}
    (h : build_end_s fluents agent = .ok a) :
    ∃ goalPres,
      mapE (fun g =>
        match RobustnessVerifier.get_global_version fluents g with
        | .error e => .error e
        | .ok gg =>
          match RobustnessVerifier.get_local_version fluents agent.name g with
          | .error e => .error e
          | .ok lg => .ok [gg, lg]) agent.goals = .ok goalPres ∧
      a = { name := "end_s_" ++ agent.name, params := [],
            preconditions := .notE (fin_app agent.name) :: goalPres.flatten,
            preconditions_wait := [],
            effects := [⟨fin_app agent.name, .boolConst true, .boolConst true⟩,
                        ⟨act_expr, .boolConst false, .boolConst true⟩],
            agent := none } := by
  unfold build_end_s at h
  split at h
  · exact absurd h (by simp)
  · rename_i goalPres hgp
    injection h with h2
    subst h2
    exact ⟨goalPres, hgp, rfl⟩

theorem build_end_f_ok {fluents : List UPFluent} {agent : UPAgent} {i : Nat} {goal : FNode}
    {a : UPInstAction} (h : build_end_f fluents agent i goal = .ok a) :
    a.effects = [⟨fin_app agent.name, .boolConst true, .boolConst true⟩,
                 ⟨act_expr, .boolConst false, .boolConst true⟩,
                 ⟨failure_expr, .boolConst true, .boolConst true⟩] := by
  unfold build_end_f at h
  split at h
  · exact absurd h (by simp)
  · split at h
    · exact absurd h (by simp)
    · injection h with h2
      subst h2
      rfl

theorem crash_safe_of_copy {fluents : List UPFluent} {action : UPInstAction}
    {suffix : String} {c : UPInstAction}
    (h : InstantaneousActionRobustnessVerifier.create_action_copy fluents action suffix = .ok c) :
    crash_safe c := by
  obtain ⟨ag, pres, effs, _, _, heffs, hc⟩ := create_action_copy_ok h
  intro e he
  rw [hc] at he
  simp only at he
  obtain ⟨e0, _, he0⟩ := mapE_ok_mem heffs e he
  obtain ⟨n, args, _, hee⟩ := local_effect_ok he0
  left
  rw [hee]
  simpa [effect_target_name] using l_ne_crash n

theorem crash_safe_a_s {fluents : List UPFluent} {action a : UPInstAction}
    (h : build_a_s fluents action = .ok a) : crash_safe a := by
  obtain ⟨ag, base, wpres, gpres, geffs, _, hbase, _, _, hgeffs, _, heff⟩ := build_a_s_ok h
  intro e he
  rw [heff] at he
  rcases List.mem_append.mp he with hb | hg
  · exact crash_safe_of_copy hbase e hb
  · obtain ⟨e0, _, he0⟩ := mapE_ok_mem hgeffs e hg
    obtain ⟨n, args, _, hee⟩ := global_effect_ok he0
    left
    rw [hee]
    simpa [effect_target_name] using g_ne_crash n

theorem crash_safe_a_f {fluents : List UPFluent} {action a : UPInstAction} {i : Nat}
    {fact : FNode} (h : build_a_f fluents action i fact = .ok a) : crash_safe a := by
  obtain ⟨base, hbase, heff⟩ := build_a_f_ok h
  intro e he
  rw [heff] at he
  rcases List.mem_append.mp he with hb | hg
  · exact crash_safe_of_copy hbase e hb
  · rcases List.mem_cons.mp hg with rfl | hg'
    · left
      simp [effect_target_name, failure_expr]
    · rcases List.mem_cons.mp hg' with rfl | hg''
      · right
        rfl
      · exact absurd hg'' (by simp)

theorem crash_safe_a_w {fluents : List UPFluent} {action a : UPInstAction} {i : Nat}
    {fact : FNode} (h : build_a_w fluents action i fact = .ok a) : crash_safe a := by
  obtain ⟨base, wfact, hbase, hwfact, ag, _, heff⟩ := build_a_w_ok h
  intro e he
  rw [heff] at he
  rcases List.mem_append.mp he with hb | hg
  · exact crash_safe_of_copy hbase e hb
  · rcases List.mem_cons.mp hg with rfl | hg'
    · left
      rcases get_waiting_version_ok_cases hwfact with ⟨n, args, _, hw⟩ | ⟨n, args, _, hw⟩
      · rw [hw]
        simpa [effect_target_name] using w_ne_crash n
      · rw [hw]
        simp [effect_target_name]
    · rcases List.mem_cons.mp hg' with rfl | hg'' 
      · left
        simp [effect_target_name, waiting_app]
      · rcases List.mem_cons.mp hg'' with rfl | hg3
        · left
          simp [effect_target_name, failure_expr]
        · exact absurd hg3 (by simp)

theorem crash_safe_a_pc {fluents : List UPFluent} {action a : UPInstAction}
    (h : build_a_pc fluents action = .ok a) : crash_safe a := by
  obtain ⟨base, hbase, heff⟩ := build_a_pc_ok h
  intro e he
  rw [heff] at he
  exact crash_safe_of_copy hbase e he

theorem crash_safe_a_pw {fluents : List UPFluent} {action a : UPInstAction}
    (h : build_a_pw fluents action = .ok a) : crash_safe a := by
  obtain ⟨base, hbase, heff⟩ := build_a_pw_ok h
  intro e he
  rw [heff] at he
  exact crash_safe_of_copy hbase e he

theorem crash_safe_end_s {fluents : List UPFluent} {agent : UPAgent} {a : UPInstAction}
    (h : build_end_s fluents agent = .ok a) : crash_safe a := by
  obtain ⟨goalPres, _, ha⟩ := build_end_s_ok h
  intro e he
  rw [ha] at he
  simp only at he
  rcases List.mem_cons.mp he with rfl | he'
  · left
    simp [effect_target_name, fin_app]
  · rcases List.mem_cons.mp he' with rfl | he''
    · left
      simp [effect_target_name, act_expr]
    · exact absurd he'' (by simp)

theorem crash_safe_end_f {fluents : List UPFluent} {agent : UPAgent} {i : Nat}
    {goal : FNode} {a : UPInstAction} (h : build_end_f fluents agent i goal = .ok a) :
    crash_safe a := by
  have heff := build_end_f_ok h
  intro e he
  rw [heff] at he
  rcases List.mem_cons.mp he with rfl | he'
  · left
    simp [effect_target_name, fin_app]
  · rcases List.mem_cons.mp he' with rfl | he''
    · left
      simp [effect_target_name, act_expr]
    · rcases List.mem_cons.mp he'' with rfl | he3
      · left
        simp [effect_target_name, failure_expr]
      · exact absurd he3 (by simp)

theorem crash_safe_of_end_list {fluents : List UPFluent} {agent : UPAgent}
    {l : List UPInstAction} {a : UPInstAction}
    (hl : build_agent_end_actions fluents agent = .ok l) (ha : a ∈ l) : crash_safe a := by
  unfold build_agent_end_actions at hl
  split at hl
  · exact absurd hl (by simp)
  · rename_i e_s hes
    split at hl
    · exact absurd hl (by simp)
    · rename_i e_fs hefs
      injection hl with h2
      subst h2
      rcases List.mem_cons.mp ha with rfl | ha'
      · exact crash_safe_end_s hes
      · obtain ⟨j, g, _, hj⟩ := mapIdxE_ok_mem hefs a ha'
        exact crash_safe_end_f hj

theorem crash_safe_of_copy_list {fluents : List UPFluent} {action : UPInstAction}
    {l : List UPInstAction} {a : UPInstAction}
    (hl : build_action_copies fluents action = .ok l) (ha : a ∈ l) : crash_safe a := by
  unfold build_action_copies at hl
  split at hl
  · exact absurd hl (by simp)
  · rename_i a_s has
    split at hl
    · exact absurd hl (by simp)
    · rename_i a_fs hafs
      split at hl
      · exact absurd hl (by simp)
      · rename_i a_ws haws
        split at hl
        · exact absurd hl (by simp)
        · rename_i a_pc hapc
          split at hl
          · exact absurd hl (by simp)
          · rename_i a_pw hapw
            injection hl with h2
            subst h2
            rcases List.mem_cons.mp ha with rfl | ha1
            · exact crash_safe_a_s has
            · rcases List.mem_append.mp ha1 with hfw | hp
              · rcases List.mem_append.mp hfw with hf | hw
                · obtain ⟨j, g, _, hj⟩ := mapIdxE_ok_mem hafs a hf
                  exact crash_safe_a_f hj
                · obtain ⟨j, g, _, hj⟩ := mapIdxE_ok_mem haws a hw
                  exact crash_safe_a_w hj
              · rcases List.mem_cons.mp hp with rfl | hp'
                · exact crash_safe_a_pc hapc
                · rcases List.mem_cons.mp hp' with rfl | hp''
                  · exact crash_safe_a_pw hapw
                  · exact absurd hp'' (by simp)

theorem add_obj_to_problem_actions {a : UPAgent} {p p' : UPProblem}
    (h : a.add_obj_to_problem p = .ok p') : p'.actions = p.actions := by
  unfold UPAgent.add_obj_to_problem at h
  split at h
  · injection h with h2
    subst h2
    rfl
  · rw [add_object_ok h]

theorem rv_prepare_agents_actions {ags : List UPAgent} :
    ∀ {q : UPProblem} {atype : Option String} {q' : UPProblem} {atype' : Option String},
    rv_prepare_agents q atype ags = .ok (q', atype') → q'.actions = q.actions := by
  induction ags with
  | nil =>
    intro q atype q' atype' h
    simp only [rv_prepare_agents] at h
    injection h with h2
    cases h2
    rfl
  | cons a rest ih =>
    intro q atype q' atype' h
    simp only [rv_prepare_agents] at h
    split at h
    · split at h
      · exact absurd h (by simp)
      · rename_i q2 hq2
        rw [ih h, add_obj_to_problem_actions hq2]
        split <;> rfl
    · split at h
      · split at h
        · exact absurd h (by simp)
        · rename_i q2 hq2
          rw [ih h, add_obj_to_problem_actions hq2]
          split <;> rfl
      · exact absurd h (by simp)

theorem add_objects_actions {os : List (String × String)} :
    ∀ {p p' : UPProblem}, p.add_objects os = .ok p' → p'.actions = p.actions := by
  induction os with
  | nil =>
    intro p p' h
    simp only [UPProblem.add_objects] at h
    injection h with h2
    rw [← h2]
  | cons o os ih =>
    intro p p' h
    simp only [UPProblem.add_objects] at h
    split at h
    · exact absurd h (by simp)
    · rename_i p1 hp1
      rw [ih h, add_object_ok hp1]

theorem rv_add_gl_fluents_actions {fs : List UPFluent} {atype : String} :
    ∀ {q q' : UPProblem}, rv_add_gl_fluents atype q fs = .ok q' → q'.actions = q.actions := by
  induction fs with
  | nil =>
    intro q q' h
    simp only [rv_add_gl_fluents] at h
    injection h with h2
    rw [← h2]
  | cons f fs ih =>
    intro q q' h
    simp only [rv_add_gl_fluents] at h
    split at h
    · exact absurd h (by simp)
    · rename_i q1 hq1
      split at h
      · exact absurd h (by simp)
      · rename_i q2 hq2
        rw [ih h, add_fluent_ok hq2, add_fluent_ok hq1]

theorem rv_add_w_fluents_actions {fs : List UPFluent} :
    ∀ {q q' : UPProblem}, rv_add_w_fluents q fs = .ok q' → q'.actions = q.actions := by
  induction fs with
  | nil =>
    intro q q' h
    simp only [rv_add_w_fluents] at h
    injection h with h2
    rw [← h2]
  | cons f fs ih =>
    intro q q' h
    simp only [rv_add_w_fluents] at h
    split at h
    · exact absurd h (by simp)
    · rename_i q1 hq1
      rw [ih h, add_fluent_ok hq1]

theorem set_initial_foldl_actions {lvs : List FNode} {val : FNode} :
    ∀ {q : UPProblem},
    (lvs.foldl (fun (acc : UPProblem) lv => acc.set_initial_value lv val) q).actions =
      q.actions := by
  induction lvs with
  | nil => intro q; rfl
  | cons lv lvs ih =>
    intro q
    rw [List.foldl_cons, ih]
    rfl

theorem rv_set_initial_actions {ivs : List (FNode × FNode)} {fluents : List UPFluent}
    {agents : List UPAgent} :
    ∀ {q q' : UPProblem}, rv_set_initial fluents agents q ivs = .ok q' →
      q'.actions = q.actions := by
  induction ivs with
  | nil =>
    intro q q' h
    simp only [rv_set_initial] at h
    injection h with h2
    rw [← h2]
  | cons iv ivs ih =>
    intro q q' h
    simp only [rv_set_initial] at h
    split at h
    · exact absurd h (by simp)
    · split at h
      · exact absurd h (by simp)
      · rw [ih h, set_initial_foldl_actions]
        rfl

theorem add_goal_foldl_actions {ags : List UPAgent} :
    ∀ {q : UPProblem},
    (ags.foldl (fun (acc : UPProblem) ag => acc.add_goal (fin_app ag.name)) q).actions =
      q.actions := by
  induction ags with
  | nil => intro q; rfl
  | cons a ags ih =>
    intro q
    rw [List.foldl_cons, ih]
    rfl

theorem prepare_init_ok {p : UPProblem} {st : RobustnessVerifier}
    (h : (RobustnessVerifier.init p).prepare_rewritten_problem = .ok st) :
    st.problem = p ∧ ∃ q3, st.new_problem = some q3 ∧ q3.actions = [] := by
  unfold RobustnessVerifier.prepare_rewritten_problem RobustnessVerifier.init at h
  simp only at h
  split at h
  · exact absurd h (by simp)
  · rename_i q1 atype hq1
    split at h
    · exact absurd h (by simp)
    · rename_i q2 hq2
      split at h
      · exact absurd h (by simp)
      · rename_i q3 hq3
        injection h with h2
        subst h2
        refine ⟨rfl, q3, rfl, ?_⟩
        rw [rv_add_gl_fluents_actions hq3, add_objects_actions hq2,
          rv_prepare_agents_actions hq1]

theorem rv_get_rewritten_actions {p : UPProblem} {st : RobustnessVerifier} {q : UPProblem}
    (h : InstantaneousActionRobustnessVerifier.get_rewritten_problem
      (RobustnessVerifier.init p) = .ok (st, q)) :
    ∃ endLists copyLists,
      mapE (build_agent_end_actions p.fluents) p.agents = .ok endLists ∧
      mapE (build_action_copies p.fluents) p.actions = .ok copyLists ∧
      q.actions = endLists.flatten ++ copyLists.flatten := by
  unfold InstantaneousActionRobustnessVerifier.get_rewritten_problem at h
  split at h
  · exact absurd h (by simp)
  · rename_i st1 hst1
    obtain ⟨hprob, q3', hq3', hq3a⟩ := prepare_init_ok hst1
    split at h
    · exact absurd h (by simp)
    · rename_i q0 hq0
      have hq0v : q0 = q3' := by
        rw [hq3'] at hq0
        exact (Option.some.inj hq0).symm
      split at h
      · exact absurd h (by simp)
      · rename_i q1 hq1
        split at h
        · exact absurd h (by simp)
        · rename_i q2 hq2
          split at h
          · exact absurd h (by simp)
          · rename_i qq3 hqq3
            split at h
            · exact absurd h (by simp)
            · rename_i q4 hq4
              split at h
              · exact absurd h (by simp)
              · rename_i q5 hq5
                split at h
                · exact absurd h (by simp)
                · rename_i q6 hq6
                  split at h
                  · exact absurd h (by simp)
                  · rename_i endLists hends
                    split at h
                    · exact absurd h (by simp)
                    · rename_i q7 hq7
                      split at h
                      · exact absurd h (by simp)
                      · rename_i copyLists hcopies
                        split at h
                        · exact absurd h (by simp)
                        · rename_i q8 hq8
                          split at h
                          · exact absurd h (by simp)
                          · rename_i q9 hq9
                            injection h with h2
                            have hqv : q = st1.problem.agents.foldl
                                (fun (acc : UPProblem) ag => acc.add_goal (fin_app ag.name))
                                (q9.add_goal failure_expr) :=
                              (congrArg Prod.snd h2).symm
                            refine ⟨endLists, copyLists, ?_, ?_, ?_⟩
                            · rw [← hprob]
                              exact hends
                            · rw [← hprob]
                              exact hcopies
                            · have e1 : q.actions = q9.actions := by
                                rw [hqv, add_goal_foldl_actions]
                                rfl
                              have e2 : q9.actions = q8.actions := rv_set_initial_actions hq9
                              have e3 := (addActionsE_ok hq8).1
                              have e4 := (addActionsE_ok hq7).1
                              have e5 : q6.actions = q5.actions := rv_add_w_fluents_actions hq6
                              have e6 : q5.actions = q0.actions := by
                                rw [add_fluent_ok hq5, add_fluent_ok hq4, add_fluent_ok hqq3,
                                  add_fluent_ok hq2, add_fluent_ok hq1]
                              rw [e1, e2, e3, e4, e5, e6, hq0v, hq3a]
                              simp

theorem apply_action_no_hit {σ : String → String} {a : UPInstAction} {s : GState}
    {atom : GroundAtom}
    (h : ∀ e ∈ a.effects, effect_ground_target σ e ≠ some atom) :
    apply_action σ a s atom = s atom := by
  unfold apply_action
  have hnil : a.effects.filterMap (fun e =>
      if effect_ground_target σ e = some atom ∧ geval σ s e.condition = true then
        some (geval σ s e.value)
      else none) = [] := by
    rw [List.filterMap_eq_nil_iff]
    intro e he
    rw [if_neg]
    intro hc
    exact h e he hc.1
  rw [hnil]
  rfl

theorem apply_action_crash {σ : String → String} {a : UPInstAction} {s : GState}
    (hsafe : crash_safe a) (hc : s ("crash", []) = true) :
    apply_action σ a s ("crash", []) = true := by
  unfold apply_action
  set hits := a.effects.filterMap (fun e =>
    if effect_ground_target σ e = some ("crash", []) ∧ geval σ s e.condition = true then
      some (geval σ s e.value)
    else none) with hhits
  show hits.getLast?.getD (s ("crash", [])) = true
  cases hl : hits.getLast? with
  | none => simpa using hc
  | some v =>
    have hv : v ∈ hits := list_getLast?_mem hl
    rw [hhits] at hv
    obtain ⟨e, he, hfe⟩ := List.mem_filterMap.mp hv
    by_cases hcond : effect_ground_target σ e = some ("crash", []) ∧ geval σ s e.condition = true
    · rw [if_pos hcond] at hfe
      have htn : effect_target_name e = "crash" := by
        unfold effect_ground_target at hcond
        unfold effect_target_name
        cases hf : e.fluent with
        | fluentApp n args =>
          rw [hf] at hcond
          have := hcond.1
          simp only [Option.some.injEq, Prod.mk.injEq] at this
          exact this.1
        | notE f => rw [hf] at hcond; exact absurd hcond.1 (by simp)
        | andE fs => rw [hf] at hcond; exact absurd hcond.1 (by simp)
        | boolConst b => rw [hf] at hcond; exact absurd hcond.1 (by simp)
      rcases hsafe e he with hne | hval
      · exact absurd htn hne
      · have hvt : v = true := by
          have hgv : geval σ s e.value = true := by rw [hval]; rfl
          rw [← Option.some.inj hfe, hgv]
        simp [hvt]
    · rw [if_neg hcond] at hfe
      exact absurd hfe (by simp)

/-- Claim C8: in the instantaneous robustness verifier's output no action
has an effect assigning `crash := false` (every `crash`-targeting effect has
constant value `True`), and therefore along every executable action sequence
of that problem, once `crash` is true it stays true. -/
theorem c8_crash_monotone (p : UPProblem) (st : RobustnessVerifier) (q : UPProblem)
    (h : InstantaneousActionRobustnessVerifier.get_rewritten_problem
      (RobustnessVerifier.init p) = .ok (st, q)) :
    (∀ a ∈ q.actions, ∀ e ∈ a.effects,
      effect_target_name e ≠ "crash" ∨ e.value = .boolConst true) ∧
    (∀ s t : GState, ProblemReach q s t →
      s ("crash", []) = true → t ("crash", []) = true) := by
  obtain ⟨endLists, copyLists, hends, hcopies, hacts⟩ := rv_get_rewritten_actions h
  have hsafe : ∀ a ∈ q.actions, crash_safe a := by
    intro a ha
    rw [hacts] at ha
    rcases List.mem_append.mp ha with he | hc
    · obtain ⟨l, hlmem, halmem⟩ := List.mem_flatten.mp he
      obtain ⟨ag, _, hl⟩ := mapE_ok_mem hends l hlmem
      exact crash_safe_of_end_list hl halmem
    · obtain ⟨l, hlmem, halmem⟩ := List.mem_flatten.mp hc
      obtain ⟨act, _, hl⟩ := mapE_ok_mem hcopies l hlmem
      exact crash_safe_of_copy_list hl halmem
  refine ⟨hsafe, ?_⟩
  intro s t hreach
  induction hreach with
  | refl => exact fun hc => hc
  | tail hst hstep ih =>
    intro hc
    cases hstep with
    | mk a σ s' ha hexec =>
      exact apply_action_crash (hsafe a ha) (ih hc)

/-- Witness for C8: on the concrete problem `p_c8` the verifier's rewrite
succeeds, the phantom copy `b8_pc` is executable in the state `s_c8` where
`crash` already holds, and `crash` still holds after applying it. -/
theorem c8_crash_monotone_witness :
    apply_action (fun n => n) b8_pc s_c8 ("crash", []) = true := by
  have h := c8_crash_monotone p_c8 _ _ rfl
  exact h.2 s_c8 _ (ProblemReach.tail (ProblemReach.refl s_c8)
    (ProblemStep.mk b8_pc (fun n => n) s_c8 (by decide) (by decide))) (by decide)

/-- Claim C5: the success copy `α_s` requires `act`, `!waiting(A(α))`,
`!crash`, the global versions of all of `α`'s (flattened) preconditions and
waitfor preconditions, and for each effect of `α` whose value is `True` the
negated waiting marker of the affected fluent; and it applies `α`'s effects
both to the local copies `l-*(A(α), …)` and to the global copies `g-*`. -/
theorem c5_success_copy (fluents : List UPFluent) (action : UPInstAction) (ag : UPAgent)
    (a : UPInstAction) (hag : action.agent = some ag)
    (h : build_a_s fluents action = .ok a) :
    act_expr ∈ a.preconditions ∧
    FNode.notE (waiting_app ag.name) ∈ a.preconditions ∧
    FNode.notE crash_expr ∈ a.preconditions ∧
    (∀ p ∈ action.preconditions ++ action.preconditions_wait, ∀ f ∈ flatten_fact p,
      ∃ g, RobustnessVerifier.get_global_version fluents f = .ok g ∧ g ∈ a.preconditions) ∧
    (∀ e ∈ action.effects, e.value = .boolConst true →
      ∃ w, InstantaneousActionRobustnessVerifier.get_waiting_version fluents e.fluent = .ok w ∧
        FNode.notE w ∈ a.preconditions) ∧
    (∀ e ∈ action.effects,
      ∃ lf gf, RobustnessVerifier.get_local_version fluents ag.name e.fluent = .ok lf ∧
        RobustnessVerifier.get_global_version fluents e.fluent = .ok gf ∧
        (⟨lf, e.value, .boolConst true⟩ : UPEffect) ∈ a.effects ∧
        (⟨gf, e.value, .boolConst true⟩ : UPEffect) ∈ a.effects) := by
  obtain ⟨ag', base, wpres, gpres, geffs, hag', hbase, hwpres, hgpres, hgeffs, hpre, heff⟩ :=
    build_a_s_ok h
  obtain ⟨ag2, pres, effs, hag2, hlpres, hleffs, hbasev⟩ := create_action_copy_ok hbase
  have hagv : ag' = ag := by
    rw [hag'] at hag
    exact Option.some.inj hag
  have hag2v : ag2 = ag := by
    rw [hag2] at hag'
    rw [hagv] at hag'
    exact Option.some.inj hag'
  rw [hagv] at hpre
  rw [hag2v] at hleffs
  refine ⟨?_, ?_, ?_, ?_, ?_, ?_⟩
  · rw [hpre, hbasev]
    exact List.mem_append_left _ (List.mem_append_left _
      (List.mem_append_left _ (List.mem_cons_self _ _)))
  · rw [hpre]
    exact List.mem_append_left _ (List.mem_append_left _
      (List.mem_append_right _ (by simp)))
  · rw [hpre]
    exact List.mem_append_left _ (List.mem_append_left _
      (List.mem_append_right _ (by simp)))
  · intro pc hpc f hf
    have hfm : f ∈ (action.preconditions ++ action.preconditions_wait).flatMap flatten_fact :=
      List.mem_flatMap.mpr ⟨pc, hpc, hf⟩
    obtain ⟨g, hg, hgm⟩ := mapE_ok_forall hgpres f hfm
    refine ⟨g, hg, ?_⟩
    rw [hpre]
    exact List.mem_append_right _ hgm
  · intro e he hval
    have hef : e ∈ action.effects.filter (fun e => e.value.is_true) :=
      List.mem_filter.mpr ⟨he, by rw [hval]; rfl⟩
    obtain ⟨w', hw', hwm⟩ := mapE_ok_forall hwpres e hef
    obtain ⟨w, hw, hw'v⟩ := waiting_pre_ok hw'
    refine ⟨w, hw, ?_⟩
    rw [hpre, ← hw'v]
    exact List.mem_append_left _ (List.mem_append_right _ hwm)
  · intro e he
    obtain ⟨le, hle, hlem⟩ := mapE_ok_forall hleffs e he
    obtain ⟨n, args, hlv, hlev⟩ := local_effect_ok hle
    obtain ⟨ge, hge, hgem⟩ := mapE_ok_forall hgeffs e he
    obtain ⟨n', args', hgv, hgev⟩ := global_effect_ok hge
    refine ⟨.fluentApp ("l-" ++ n) (.obj ag.name :: args),
      .fluentApp ("g-" ++ n') args', hlv, hgv, ?_, ?_⟩
    · rw [heff, hbasev]
      exact List.mem_append_left _ (hlev ▸ hlem)
    · rw [heff]
      exact List.mem_append_right _ (hgev ▸ hgem)

/-- Witness for C5 at the concrete action `act_c5`. -/
theorem c5_success_copy_witness :
    build_a_s fl_c5 act_c5 = .ok a_s_c5 ∧
    act_expr ∈ a_s_c5.preconditions ∧
    FNode.notE crash_expr ∈ a_s_c5.preconditions := by
  have h := c5_success_copy fl_c5 act_c5 ag_c5 a_s_c5 rfl (by decide)
  exact ⟨by decide, h.1, h.2.2.1⟩

/-- Claim C9: every effect of a success copy `α_s` of an action bound to
agent `A` targets either a local fluent `l-*` of `A` itself or a global
fluent `g-*`; consequently applying `α_s` in any ground state changes no
local atom `l-*(B, …)` of any agent `B ≠ A`. -/
theorem c9_agent_local_isolation (fluents : List UPFluent) (action : UPInstAction)
    (ag : UPAgent) (a : UPInstAction) (hag : action.agent = some ag)
    (h : build_a_s fluents action = .ok a) :
    (∀ e ∈ a.effects,
      (∃ n args, e.fluent = .fluentApp ("l-" ++ n) (.obj ag.name :: args)) ∨
      (∃ n args, e.fluent = .fluentApp ("g-" ++ n) args)) ∧
    (∀ (σ : String → String) (s : GState) (f B : String) (args : List String),
      B ≠ ag.name →
      apply_action σ a s ("l-" ++ f, B :: args) = s ("l-" ++ f, B :: args)) := by
  obtain ⟨ag', base, wpres, gpres, geffs, hag', hbase, hwpres, hgpres, hgeffs, hpre, heff⟩ :=
    build_a_s_ok h
  obtain ⟨ag2, pres, effs, hag2, hlpres, hleffs, hbasev⟩ := create_action_copy_ok hbase
  have hagv : ag' = ag := by
    rw [hag'] at hag
    exact Option.some.inj hag
  have hag2v : ag2 = ag := by
    rw [hag2] at hag'
    rw [hagv] at hag'
    exact Option.some.inj hag'
  rw [hag2v] at hleffs
  have hshape : ∀ e ∈ a.effects,
      (∃ n args, e.fluent = .fluentApp ("l-" ++ n) (.obj ag.name :: args)) ∨
      (∃ n args, e.fluent = .fluentApp ("g-" ++ n) args) := by
    intro e he
    rw [heff] at he
    rcases List.mem_append.mp he with hb | hg
    · rw [hbasev] at hb
      simp only at hb
      obtain ⟨e0, _, he0⟩ := mapE_ok_mem hleffs e hb
      obtain ⟨n, args, _, hee⟩ := local_effect_ok he0
      exact Or.inl ⟨n, args, by rw [hee]⟩
    · obtain ⟨e0, _, he0⟩ := mapE_ok_mem hgeffs e hg
      obtain ⟨n, args, _, hee⟩ := global_effect_ok he0
      exact Or.inr ⟨n, args, by rw [hee]⟩
  refine ⟨hshape, ?_⟩
  intro σ s f B args hB
  apply apply_action_no_hit
  intro e he
  rcases hshape e he with ⟨n, targs, hf⟩ | ⟨n, targs, hf⟩
  · unfold effect_ground_target
    rw [hf]
    intro hc
    simp only [Option.some.injEq, Prod.mk.injEq] at hc
    have h2 : ground_term σ (.obj ag.name) :: targs.map (ground_term σ) = B :: args := by
      rw [← List.map_cons]
      exact hc.2
    injection h2 with h3 _
    exact hB h3.symm
  · unfold effect_ground_target
    rw [hf]
    intro hc
    simp only [Option.some.injEq, Prod.mk.injEq] at hc
    exact g_ne_l n f hc.1

/-- Witness for C9: applying the concrete success copy built for `act_c9`
leaves the other agent `b9`'s local atom unchanged. -/
theorem c9_agent_local_isolation_witness :
    build_a_s fl_c9 act_c9 = .ok a_s_c9 ∧
    apply_action (fun n => n) a_s_c9 s_c9 ("l-" ++ "r9", ["b9"]) =
      s_c9 ("l-" ++ "r9", ["b9"]) := by
  have h := c9_agent_local_isolation fl_c9 act_c9 ag_c9 a_s_c9 rfl (by decide)
  exact ⟨by decide, h.2 (fun n => n) s_c9 "r9" "b9" [] (by decide)⟩

/-- Counterexample for C6 as stated: on the two-agent problem `p_c6` the
verifier's `end_s_ag1` action (the first action of the output) carries the
unconditional effect `act := False`; executing it in a state where its
preconditions hold and agent `ag2` has not finished leaves `fin(ag2)` false
but still clears `act` — `act` does not stay true while some agent has not
yet finished. -/
theorem c6_act_cleared_while_unfinished :
    (InstantaneousActionRobustnessVerifier.get_rewritten_problem
      (RobustnessVerifier.init p_c6)).map (fun r => r.2.actions.head?) =
        .ok (some end_s_ag1_c6) ∧
    (⟨act_expr, .boolConst false, .boolConst true⟩ : UPEffect) ∈ end_s_ag1_c6.effects ∧
    geval_list (fun n => n) s_c6 end_s_ag1_c6.preconditions = true ∧
    s_c6 ("fin", ["ag2"]) = false ∧
    s_c6 ("act", []) = true ∧
    apply_action (fun n => n) end_s_ag1_c6 s_c6 ("act", []) = false ∧
    apply_action (fun n => n) end_s_ag1_c6 s_c6 ("fin", ["ag2"]) = false := by
  decide

/-- Claim C6 as amended: `end_s_A` requires `!fin(A)` and the global and
local versions of each of `A`'s goals, and its effects are exactly
`fin(A) := True` followed by the unconditional `act := False` (the source
clears `act` on every `end_s`, not only when the last agent finishes). -/
theorem c6_end_s_amended (fluents : List UPFluent) (agent : UPAgent) (a : UPInstAction)
    (h : build_end_s fluents agent = .ok a) :
    FNode.notE (fin_app agent.name) ∈ a.preconditions ∧
    (∀ g ∈ agent.goals,
      ∃ gg lg, RobustnessVerifier.get_global_version fluents g = .ok gg ∧
        RobustnessVerifier.get_local_version fluents agent.name g = .ok lg ∧
        gg ∈ a.preconditions ∧ lg ∈ a.preconditions) ∧
    a.effects = [⟨fin_app agent.name, .boolConst true, .boolConst true⟩,
                 ⟨act_expr, .boolConst false, .boolConst true⟩] := by
  obtain ⟨goalPres, hgp, ha⟩ := build_end_s_ok h
  refine ⟨?_, ?_, ?_⟩
  · rw [ha]
    exact List.mem_cons_self _ _
  · intro g hg
    obtain ⟨y, hy, hym⟩ := mapE_ok_forall hgp g hg
    have hyv : ∃ gg lg, RobustnessVerifier.get_global_version fluents g = .ok gg ∧
        RobustnessVerifier.get_local_version fluents agent.name g = .ok lg ∧
        y = [gg, lg] := by
      revert hy
      cases hgg : RobustnessVerifier.get_global_version fluents g with
      | error e => intro hy; exact absurd hy (by simp)
      | ok gg =>
        cases hlg : RobustnessVerifier.get_local_version fluents agent.name g with
        | error e => intro hy; exact absurd hy (by simp)
        | ok lg =>
          intro hy
          exact ⟨gg, lg, rfl, rfl, (Except.ok.inj hy).symm⟩
    obtain ⟨gg, lg, hgg, hlg, hyv2⟩ := hyv
    refine ⟨gg, lg, hgg, hlg, ?_, ?_⟩
    · rw [ha]
      refine List.mem_cons_of_mem _ (List.mem_flatten.mpr ⟨y, hym, ?_⟩)
      rw [hyv2]
      simp
    · rw [ha]
      refine List.mem_cons_of_mem _ (List.mem_flatten.mpr ⟨y, hym, ?_⟩)
      rw [hyv2]
      simp
  · rw [ha]

/-- Witness for the amended C6 at the agent `ag1_c6`. -/
theorem c6_end_s_amended_witness :
    build_end_s p_c6.fluents ag1_c6 = .ok end_s_ag1_c6 ∧
    end_s_ag1_c6.effects =
      [⟨fin_app "ag1", .boolConst true, .boolConst true⟩,
       ⟨act_expr, .boolConst false, .boolConst true⟩] := by
  have h := c6_end_s_amended p_c6.fluents ag1_c6 end_s_ag1_c6 (by decide)
  exact ⟨by decide, h.2.2⟩

theorem sap_check_agent_types_hetero {l : List UPAgent} {t : String}
    (h : l.any (fun b => b.typeName != t) = true) :
    sap_check_agent_types (some t) l = .error .assertionError := by
  induction l with
  | nil => simp at h
  | cons b rest ih =>
    simp only [List.any_cons, Bool.or_eq_true, bne_iff_ne] at h
    simp only [sap_check_agent_types]
    split
    · rename_i hbt
      rcases h with hb | hrest
      · exact absurd (by simpa using hbt : t = b.typeName).symm hb
      · exact ih (by simpa using hrest)
    · rfl

theorem rv_prepare_agents_hetero {l : List UPAgent} :
    ∀ {q : UPProblem} {t : String},
    l.any (fun b => b.typeName != t) = true →
    (∀ a ∈ l, a.isExistingObject = false → ∀ o ∈ q.objects, o.1 ≠ a.name) →
    (l.map UPAgent.name).Nodup →
    rv_prepare_agents q (some t) l = .error .assertionError := by
  induction l with
  | nil => intro q t h _ _; simp at h
  | cons a rest ih =>
    intro q t h hobj hnd
    simp only [List.any_cons, Bool.or_eq_true, bne_iff_ne] at h
    simp only [rv_prepare_agents]
    by_cases hat : t == a.typeName
    · rw [if_pos hat]
      have haok : ∃ q2, a.add_obj_to_problem
          (if q.types.contains a.typeName then q
           else { q with types := q.types ++ [a.typeName] }) = .ok q2 ∧
          (∀ o ∈ q2.objects, o.1 ∈ (q.objects.map Prod.fst) ∨ o.1 = a.name) := by
        unfold UPAgent.add_obj_to_problem
        by_cases hiso : a.isExistingObject
        · rw [if_pos hiso]
          refine ⟨_, rfl, ?_⟩
          intro o ho
          split at ho <;> exact Or.inl (List.mem_map.mpr ⟨o, ho, rfl⟩)
        · rw [if_neg hiso]
          unfold UPProblem.add_object
          rw [if_neg]
          · refine ⟨_, rfl, ?_⟩
            intro o ho
            split at ho <;>
            · simp only [List.mem_append, List.mem_singleton] at ho
              rcases ho with ho' | ho'
              · exact Or.inl (List.mem_map.mpr ⟨o, ho', rfl⟩)
              · exact Or.inr (by rw [ho'])
          · intro hany
            obtain ⟨o, ho, hoeq⟩ := List.any_eq_true.mp hany
            have hne := hobj a (List.mem_cons_self _ _) (by simpa using hiso) o (by
              revert ho
              split <;> exact fun ho => ho)
            exact hne (by simpa using hoeq)
      obtain ⟨q2, hq2, hq2o⟩ := haok
      rw [hq2]
      apply ih
      · rcases h with hb | hrest
        · exact absurd (by simpa using hat) (by simpa using Ne.symm hb)
        · exact hrest
      · intro b hb hbiso o ho
        rcases hq2o o ho with hin | heq
        · obtain ⟨o', ho', ho'eq⟩ := List.mem_map.mp hin
          intro hoeq
          exact hobj b (List.mem_cons_of_mem _ hb) hbiso o' ho' (by rw [ho'eq, hoeq])
        · intro hoeq
          rw [heq] at hoeq
          simp only [List.map_cons, List.nodup_cons] at hnd
          exact hnd.1 (hoeq ▸ List.mem_map.mpr ⟨b, hb, rfl⟩)
      · simp only [List.map_cons, List.nodup_cons] at hnd
        exact hnd.2
    · rw [if_neg hat]

/-- Adding an agent object to a problem with no objects yet always succeeds,
and every object of the result is named after the agent. -/
theorem add_obj_to_problem_ok_of_empty {a : UPAgent} {q : UPProblem}
    (hq : q.objects = []) :
    ∃ q2, a.add_obj_to_problem q = .ok q2 ∧ ∀ o ∈ q2.objects, o.1 = a.name := by
  unfold UPAgent.add_obj_to_problem
  by_cases hiso : a.isExistingObject
  · rw [if_pos hiso]
    refine ⟨q, rfl, ?_⟩
    rw [hq]
    simp
  · rw [if_neg hiso]
    unfold UPProblem.add_object
    rw [if_neg (by rw [hq]; simp)]
    refine ⟨_, rfl, ?_⟩
    intro o ho
    simp only [hq, List.nil_append, List.mem_singleton] at ho
    rw [ho]

theorem rv_prepare_agents_hetero_start {a : UPAgent} {rest : List UPAgent} {q : UPProblem}
    (hq : q.objects = [])
    (hhet : rest.any (fun b => b.typeName != a.typeName) = true)
    (hnd : ((a :: rest).map UPAgent.name).Nodup) :
    rv_prepare_agents q none (a :: rest) = .error .assertionError := by
  simp only [rv_prepare_agents]
  have hq1 : (if q.types.contains a.typeName then q
      else { q with types := q.types ++ [a.typeName] }).objects = [] := by
    split <;> exact hq
  obtain ⟨q2, hq2, hq2o⟩ := add_obj_to_problem_ok_of_empty (a := a) hq1
  rw [hq2]
  simp only [List.map_cons, List.nodup_cons] at hnd
  apply rv_prepare_agents_hetero hhet
  · intro b hb _ o ho
    have hoa := hq2o o ho
    intro heq
    have hba : b.name = a.name := by
      rw [← heq]
      exact hoa
    exact hnd.1 (hba ▸ List.mem_map.mpr ⟨b, hb, rfl⟩)
  · exact hnd.2

/-- Claim C7 as amended: with agents of two different types (and distinct
agent names), `SingleAgentProjection.get_rewritten_problem` and
`RobustnessVerifier.prepare_rewritten_problem` both fail with the bare
`assert`'s `AssertionError` — not with `ProblemDefinitionError`. -/
theorem c7_hetero_assertion (p : UPProblem) (A : UPAgent)
    (hnd : (p.agents.map UPAgent.name).Nodup)
    (hhet : agents_hetero p.agents = true) :
    (SingleAgentProjection.init p A).get_rewritten_problem.2 = .error .assertionError ∧
    RobustnessVerifier.prepare_rewritten_problem (RobustnessVerifier.init p) =
      .error .assertionError := by
  constructor
  · unfold SingleAgentProjection.get_rewritten_problem SingleAgentProjection.init
    simp only
    cases hags : p.agents with
    | nil =>
      rw [hags] at hhet
      simp [agents_hetero] at hhet
    | cons a rest =>
      rw [hags] at hhet
      have hcheck : sap_check_agent_types none (a :: rest) = .error .assertionError := by
        simp only [sap_check_agent_types]
        exact sap_check_agent_types_hetero (by simpa [agents_hetero] using hhet)
      rw [hcheck]
  · unfold RobustnessVerifier.prepare_rewritten_problem RobustnessVerifier.init
    simp only
    cases hags : p.agents with
    | nil =>
      rw [hags] at hhet
      simp [agents_hetero] at hhet
    | cons a rest =>
      rw [hags] at hhet hnd
      rw [rv_prepare_agents_hetero_start rfl
        (by simpa [agents_hetero] using hhet) hnd]

/-- Witness for the amended C7 at the concrete heterogeneous problem
`p_c7w`. -/
theorem c7_hetero_assertion_witness :
    (SingleAgentProjection.init p_c7w agx_c7w).get_rewritten_problem.2 =
      .error .assertionError ∧
    RobustnessVerifier.prepare_rewritten_problem (RobustnessVerifier.init p_c7w) =
      .error .assertionError :=
  c7_hetero_assertion p_c7w agx_c7w (by decide) (by decide)

/-- Counterexample for C7 as stated: on the heterogeneous problem `p_c7`
both entry points raise the bare `AssertionError`, which is not
`ProblemDefinitionError`; moreover `SingleAgentProjection` has already
cached the renamed clone when the `assert` fires, so the partial problem —
with all original actions unfiltered — remains visible and is returned by a
second call. -/
theorem c7_assertion_not_problem_error :
    (SingleAgentProjection.init p_c7 agx_c7).get_rewritten_problem.2 =
      .error .assertionError ∧
    RobustnessVerifier.prepare_rewritten_problem (RobustnessVerifier.init p_c7) =
      .error .assertionError ∧
    PyError.assertionError ≠ PyError.problemDefinitionError ∧
    ((SingleAgentProjection.init p_c7 agx_c7).get_rewritten_problem.1.new_problem =
      some { p_c7 with name := "sap_p7" }) ∧
    ((SingleAgentProjection.init p_c7 agx_c7).get_rewritten_problem.1.get_rewritten_problem.2 =
      .ok { p_c7 with name := "sap_p7" }) := by
  decide

theorem sap_actions_loop_ok {tname : String} {agent : UPAgent} {acts : List UPInstAction} :
    ∀ {q q' : UPProblem}, sap_actions_loop tname agent q acts = .ok q' →
    q'.goals = q.goals ∧
    (∀ b ∈ q.actions, b ∈ q'.actions) ∧
    (∀ a ∈ acts, SingleAgentProjection.includes agent a = true →
      ∃ a', sap_rewrite_action tname a = .ok a' ∧ a' ∈ q'.actions) ∧
    (∀ a' ∈ q'.actions, a' ∈ q.actions ∨
      ∃ a ∈ acts, SingleAgentProjection.includes agent a = true ∧
        sap_rewrite_action tname a = .ok a') := by
  induction acts with
  | nil =>
    intro q q' h
    simp only [sap_actions_loop] at h
    injection h with h2
    subst h2
    exact ⟨rfl, fun b hb => hb, by simp, fun a' ha' => Or.inl ha'⟩
  | cons a rest ih =>
    intro q q' h
    simp only [sap_actions_loop] at h
    split at h
    · rename_i hinc
      split at h
      · exact absurd h (by simp)
      · rename_i a1 ha1
        split at h
        · exact absurd h (by simp)
        · rename_i q1 hq1
          have hq1v := add_action_ok hq1
          subst hq1v
          obtain ⟨g1, g2, g3, g4⟩ := ih h
          refine ⟨by simpa using g1, ?_, ?_, ?_⟩
          · intro b hb
            exact g2 b (by simp [hb])
          · intro b hb hbinc
            rcases List.mem_cons.mp hb with rfl | hb'
            · exact ⟨a1, ha1, g2 a1 (by simp)⟩
            · exact g3 b hb' hbinc
          · intro a' ha'
            rcases g4 a' ha' with hin | ⟨b, hb, hbinc, hbr⟩
            · simp only [List.mem_append, List.mem_singleton] at hin
              rcases hin with h1 | rfl
              · exact Or.inl h1
              · exact Or.inr ⟨a, List.mem_cons_self _ _, hinc, ha1⟩
            · exact Or.inr ⟨b, List.mem_cons_of_mem _ hb, hbinc, hbr⟩
    · rename_i hninc
      obtain ⟨g1, g2, g3, g4⟩ := ih h
      refine ⟨g1, g2, ?_, ?_⟩
      · intro b hb hbinc
        rcases List.mem_cons.mp hb with rfl | hb'
        · exact absurd hbinc (by simpa using hninc)
        · exact g3 b hb' hbinc
      · intro a' ha'
        rcases g4 a' ha' with hin | ⟨b, hb, hbinc, hbr⟩
        · exact Or.inl hin
        · exact Or.inr ⟨b, List.mem_cons_of_mem _ hb, hbinc, hbr⟩

/-- Claim C3 as amended: when `SingleAgentProjection.get_rewritten_problem`
succeeds, only the chosen agent's goals are required; every input action
whose agent compares equal to the chosen agent or is an
`ExistingObjectAgent` yields a rewritten action (waitfor preconditions
folded into the preconditions followed by the `active-agent` precondition,
wait list cleared); and every output action arises from such an action —
actions of other plain agents are dropped, not kept. -/
theorem c3_single_agent_projection (self : SingleAgentProjection) (q : UPProblem)
    (hnp : self.new_problem = none)
    (h : self.get_rewritten_problem.2 = .ok q) :
    q.goals = self.agent.goals ∧
    (∀ a ∈ self.problem.actions, SingleAgentProjection.includes self.agent a = true →
      ∃ ag, a.agent = some ag ∧
        { a with
          name := get_fresh_name self.name a.name,
          preconditions := a.preconditions ++ a.preconditions_wait ++ [active_app ag.name],
          preconditions_wait := [] } ∈ q.actions) ∧
    (∀ a' ∈ q.actions, ∃ a ∈ self.problem.actions,
      SingleAgentProjection.includes self.agent a = true ∧
      sap_rewrite_action self.name a = .ok a') := by
  unfold SingleAgentProjection.get_rewritten_problem at h
  rw [hnp] at h
  simp only at h
  split at h
  · exact absurd h (by simp)
  · rename_i atype hatype
    split at h
    · exact absurd h (by simp)
    · rename_i q1 hq1
      split at h
      · exact absurd h (by simp)
      · rename_i q4 hq4
        simp only [Except.ok.injEq] at h
        obtain ⟨g1, g2, g3, g4⟩ := sap_actions_loop_ok hq4
        refine ⟨?_, ?_, ?_⟩
        · rw [← h]
        · intro a ha hainc
          obtain ⟨a', ha', ha'm⟩ := g3 a ha hainc
          have hagub : ∃ ag, a.agent = some ag ∧
              a' = { a with
                name := get_fresh_name self.name a.name,
                preconditions := a.preconditions ++ a.preconditions_wait ++
                  [active_app ag.name],
                preconditions_wait := [] } := by
            unfold sap_rewrite_action at ha'
            split at ha'
            · exact absurd ha' (by simp)
            · rename_i ag hag
              exact ⟨ag, hag, (Except.ok.inj ha').symm⟩
          obtain ⟨ag, hag, ha'v⟩ := hagub
          refine ⟨ag, hag, ?_⟩
          rw [← h]
          exact ha'v ▸ ha'm
        · intro a' ha'
          rw [← h] at ha'
          simp only at ha'
          rcases g4 a' ha' with hin | hgen
          · exact absurd hin (by simp)
          · exact hgen

/-- Counterexample for C3 as stated: in `p_c3` the action `a21` belongs to
the other plain agent `ag2`; projecting on `ag1` yields a problem with no
actions at all, so not every instantaneous action of the input yields a
corresponding action in the projection. -/
theorem c3_other_agent_action_dropped :
    (SingleAgentProjection.init p_c3 ag1_c3).get_rewritten_problem.2.map
      UPProblem.actions = .ok [] ∧
    p_c3.actions = [act2_c3] ∧
    act2_c3.agent = some ag2_c3 ∧
    ag2_c3.py_eq ag1_c3 = false ∧
    ag2_c3.isExistingObject = false := by
  decide

/-- Witness for the amended C3 at `p_c3w`: the projection keeps the
`ExistingObjectAgent` action `drive`, promotes its waitfor precondition and
requires only the agent's goals. -/
theorem c3_single_agent_projection_witness :
    (SingleAgentProjection.init p_c3w agw_c3).get_rewritten_problem.2 = .ok q_c3w ∧
    q_c3w.goals = agw_c3.goals ∧
    { actw_c3 with
      name := get_fresh_name "sap" "drive",
      preconditions := actw_c3.preconditions ++ actw_c3.preconditions_wait ++
        [active_app "c1"],
      preconditions_wait := [] } ∈ q_c3w.actions := by
  have h := c3_single_agent_projection (SingleAgentProjection.init p_c3w agw_c3) q_c3w
    rfl (by decide)
  obtain ⟨ag, hag, hmem⟩ := h.2.1 actw_c3 (by decide) (by decide)
  have hagv : ag = agw_c3 := Option.some.inj (hag.symm.trans rfl)
  subst hagv
  exact ⟨by decide, h.1, hmem⟩

/-- Claim C4 as amended: `is_multi_agent_robust` clears the stored
counterexample, builds the robustness-verification problem and invokes the
planner directly on that problem — no negative-conditions removal happens in
between; when the planner reports a plan the plan is stored as the
counterexample and the method returns false, otherwise it returns true. -/
theorem c4_is_multi_agent_robust (planner : Planner) (self : SocialLaw)
    (st1 : RobustnessVerifier) (q : UPProblem)
    (h : InstantaneousActionRobustnessVerifier.get_rewritten_problem
      (RobustnessVerifier.init
        ({ self with counter_example := none } : SocialLaw).get_rewritten_problem.2) =
      .ok (st1, q)) :
    SocialLaw.is_multi_agent_robust planner self =
      (match planner q with
       | some plan =>
         ({ ({ self with counter_example := none } : SocialLaw).get_rewritten_problem.1 with
            counter_example := some plan }, .ok false)
       | none =>
         (({ self with counter_example := none } : SocialLaw).get_rewritten_problem.1,
          .ok true)) := by
  unfold SocialLaw.is_multi_agent_robust
  rw [h]

/-- Counterexample for C4 as stated: `planner_neg` answers only problems
that still contain negative conditions, and on `p_c4` the multi-agent check
hands it such a problem (the verifier output itself, with its `Not`
preconditions intact) — so the planner's input did not have its negative
conditions stripped, yet a counterexample is recorded and false returned. -/
theorem c4_no_negative_stripping :
    (InstantaneousActionRobustnessVerifier.get_rewritten_problem
      (RobustnessVerifier.init p_c4)).map (fun r => r.2.has_negative_conditions) =
        .ok true ∧
    (SocialLaw.is_multi_agent_robust planner_neg (SocialLaw.init p_c4)).2 = .ok false ∧
    (SocialLaw.is_multi_agent_robust planner_neg (SocialLaw.init p_c4)).1.counter_example =
      some ["neg"] := by
  decide

/-- Witness for the amended C4 at `p_c4` with `planner_neg`. -/
theorem c4_is_multi_agent_robust_witness :
    (SocialLaw.is_multi_agent_robust planner_neg (SocialLaw.init p_c4)).2 = .ok false := by
  have h := c4_is_multi_agent_robust planner_neg (SocialLaw.init p_c4) _ _ rfl
  rw [h]
  decide

/-- Evaluation for C1 at the failing input: on `p_c1` the planner returns
the deadlock counterexample plan `[a11_w_0]` — an action the verifier
emitted as the wait copy `a11 ++ "_w_" ++ 0`, i.e. a `_w_*` action with no
`_f*` action before it — yet `is_robust` answers
`NON_ROBUST_MULTI_AGENT_FAIL`: the scan compares only the exact last two
characters (`_0` here) with `_f`/`_w`, so `_f_i`/`_w_i` names never match
and the fallthrough result `NON_ROBUST_MULTI_AGENT_FAIL` is returned. -/
theorem c1_suffix_scan_misses_deadlock :
    (SocialLaw.is_robust planner_c1 (SocialLaw.init p_c1)).2 =
      .ok .NON_ROBUST_MULTI_AGENT_FAIL ∧
    (SocialLaw.is_robust planner_c1 (SocialLaw.init p_c1)).1.counter_example =
      some ["a11_w_0"] ∧
    "a11_w_0" = "a11" ++ "_w_" ++ toString 0 ∧
    (InstantaneousActionRobustnessVerifier.get_rewritten_problem
      (RobustnessVerifier.init p_c1)).map
        (fun r => r.2.actions.any (fun a => a.name == "a11_w_0")) = .ok true ∧
    last_two "a11_w_0" = "_0" ∧
    classify_counter_example ["a11_w_0"] = .NON_ROBUST_MULTI_AGENT_FAIL := by
  decide

/-- Evaluation for C2 at the failing input: on `p_c2` the first call of the
instantaneous verifier's `get_rewritten_problem` succeeds, but the second
call on the same verifier object does not return the cached problem: it
re-adds the `failure` fluent to it and dies with the duplicate-name
`ProblemDefinitionError`.  `SocialLaw` and `SingleAgentProjection` do cache:
their second calls return the same pair again. -/
theorem c2_second_call_not_cached :
    (match InstantaneousActionRobustnessVerifier.get_rewritten_problem
        (RobustnessVerifier.init p_c2) with
     | .ok (st, _) => InstantaneousActionRobustnessVerifier.get_rewritten_problem st
     | .error e => .error e) = .error .problemDefinitionError ∧
    (InstantaneousActionRobustnessVerifier.get_rewritten_problem
      (RobustnessVerifier.init p_c2)).isOk = true ∧
    ((SingleAgentProjection.init p_c2 ag_c2).get_rewritten_problem.1.get_rewritten_problem =
      (SingleAgentProjection.init p_c2 ag_c2).get_rewritten_problem) ∧
    ((SocialLaw.init p_c2).get_rewritten_problem.1.get_rewritten_problem =
      (SocialLaw.init p_c2).get_rewritten_problem) := by
  decide

/-- Claim C10: two `Agent` objects constructed without an explicit `goals`
argument share the one default goals list, so a goal added to the first
(any Boolean goal other than `TRUE`) is also seen in the second agent's
goals; adding `TRUE` leaves the shared list untouched. -/
theorem c10_shared_default_goals (g : FNode) (n1 n2 : String)
    (hg : g ≠ .boolConst true) :
    g ∈ Agent.goals (Agent.add_goal AgentGoalsHeap.start (Agent.mk_default n1) g)
      (Agent.mk_default n2) ∧
    (∀ (h : AgentGoalsHeap) (a : Agent), Agent.add_goal h a (.boolConst true) = h) := by
  constructor
  · unfold Agent.add_goal
    rw [if_neg hg]
    simp [Agent.goals, Agent.mk_default, AgentGoalsHeap.read, AgentGoalsHeap.write,
      AgentGoalsHeap.start]
  · intro h a
    unfold Agent.add_goal
    rw [if_pos rfl]

/-- Witness for C10 at the concrete goal `f()` and agents `a1`, `a2`. -/
theorem c10_shared_default_goals_witness :
    FNode.fluentApp "f" [] ∈
      Agent.goals (Agent.add_goal AgentGoalsHeap.start (Agent.mk_default "a1")
        (.fluentApp "f" [])) (Agent.mk_default "a2") :=
  (c10_shared_default_goals (.fluentApp "f" []) "a1" "a2" (by decide)).1
